import Mathlib

/-!
Verification development for the forking state backend in
`crates/evm-fork-db/src/backend.rs`: the `BackendHandler` event loop with
request coalescing, multi-tier caching, and its `SharedBackend` client handle.

The handler is embedded as an explicit state machine.  Addresses, slots,
256-bit words, hashes, byte strings and error causes are modelled as `Nat`
(resp. `List Nat` for byte strings): no arithmetic is performed on them, they
are only used as map keys and opaque payloads.  Rust `HashMap`s become
association lists with replace-in-place insertion (matching the `Entry` API's
in-place mutation).  The keccak-256 function and the local archive
capability's success predicate are parameters of the model (an `Env` record),
since the handler only observes their results.  Futures are split into their
spawn site (recorded in `pending_requests` and in a ghost `spawnLog` that
accumulates every push onto `pending_requests`) and their completion (an
explicit event carrying the provider's response).  Reply-channel sends are
accumulated in a ghost `sent` log.  The two `unwrap` panics on
`block_id`/`as_u64` are modelled by `Option`-valued step functions (`none` =
panic).
-/

/-- Association-list map with replace-in-place insertion. -/
abbrev Map (K V : Type) : Type := List (K × V)

namespace Map

def find? {K V : Type} [DecidableEq K] : Map K V → K → Option V
  | [], _ => none
  | (k', v') :: rest, k => if k' = k then some v' else find? rest k

/-- Insert, replacing an existing binding in place (like `HashMap::insert`
and the `Entry` API's in-place mutation). -/
def ins {K V : Type} [DecidableEq K] : Map K V → K → V → Map K V
  | [], k, v => [(k, v)]
  | (k', v') :: rest, k, v =>
      if k' = k then (k, v) :: rest else (k', v') :: ins rest k v

/-- Remove a key (like `HashMap::remove`). -/
def del {K V : Type} [DecidableEq K] : Map K V → K → Map K V
  | [], _ => []
  | (k', v') :: rest, k => if k' = k then del rest k else (k', v') :: del rest k

end Map

/-- `alloy_rpc_types::BlockId`: a number, a hash, or a named tag
(collapsed to `latest`, the `Default`). -/
inductive BlockId : Type
  | number (n : Nat)
  | hash (h : Nat)
  | latest
deriving DecidableEq, Repr

namespace BlockId

/-- `BlockId::as_u64`: `Some` only for a plain block number. -/
def as_u64 : BlockId → Option Nat
  | .number n => some n
  | _ => none

end BlockId

/-- `revm::primitives::AccountInfo` (code stored inline as raw bytes). -/
structure AccountInfo : Type where
  balance : Nat
  nonce : Nat
  code : List Nat
  code_hash : Nat
deriving DecidableEq, Repr

/-- The part of an RPC block the handler reads: `block.header.hash`. -/
structure Block : Type where
  headerHash : Nat
deriving DecidableEq, Repr

/-- The typed error taxonomy (`DatabaseError`), causes as opaque `Nat`. -/
inductive DatabaseError : Type
  | GetAccount (addr : Nat) (cause : Nat)
  | GetStorage (addr : Nat) (slot : Nat) (cause : Nat)
  | GetBlockHash (number : Nat) (cause : Nat)
  | GetFullBlock (id : BlockId) (cause : Nat)
  | GetTransaction (h : Nat) (cause : Nat)
  | BlockNotFound (id : BlockId)
  | MissingCode (h : Nat)
deriving DecidableEq, Repr

deriving instance DecidableEq for Except
deriving instance Repr for Except

/-- A value delivered on a one-shot reply channel, tagged by request kind. -/
inductive Reply : Type
  | account (r : Except DatabaseError AccountInfo)
  | storage (r : Except DatabaseError Nat)
  | blockHash (r : Except DatabaseError Nat)
  | fullBlock (r : Except DatabaseError Block)
  | transaction (r : Except DatabaseError Nat)
deriving DecidableEq, Repr

/-- Which backing source a spawned account/storage future queries. -/
inductive Source : Type
  | localDb (blockNumber : Nat)
  | remote (id : BlockId)
deriving DecidableEq, Repr

/-- A provider future in `pending_requests`, identified by its key and
source; `fullBlock`/`transaction` futures carry their reply channel. -/
inductive PendingReq : Type
  | account (addr : Nat) (src : Source)
  | storage (addr : Nat) (idx : Nat) (src : Source)
  | blockHash (number : Nat)
  | fullBlock (id : BlockId) (sender : Nat)
  | transaction (h : Nat) (sender : Nat)
  | anyRequest
deriving DecidableEq, Repr

/-- The `BackendRequest` command enum; senders are channel identifiers. -/
inductive BackendRequest : Type
  | Basic (addr : Nat) (sender : Nat)
  | Storage (addr : Nat) (idx : Nat) (sender : Nat)
  | BlockHash (number : Nat) (sender : Nat)
  | FullBlock (id : BlockId) (sender : Nat)
  | Transaction (h : Nat) (sender : Nat)
  | SetPinnedBlock (id : BlockId)
  | UpdateAddress (data : List (Nat × AccountInfo))
  | UpdateStorage (data : List (Nat × Map Nat Nat))
  | UpdateBlockHash (data : List (Nat × Nat))
  | AnyRequest
deriving Repr

/-- Environment parameters of the model: the keccak-256 function (opaque to
the handler) and whether `file_db_factory.history_by_block_number(n)`
returns `Ok` for a given block number. -/
structure Env : Type where
  keccak : List Nat → Nat
  historyOk : Nat → Bool

/-- The `KECCAK_EMPTY` constant: keccak-256 of the empty byte string. -/
def KECCAK_EMPTY (env : Env) : Nat := env.keccak []

/-- The `BackendHandler` state.  `sent` is a ghost log of every send on a
reply channel, `spawnLog` a ghost log of every push onto
`pending_requests`. -/
structure Handler : Type where
  file_db_factory : Bool
  accounts : Map Nat AccountInfo
  storage : Map Nat (Map Nat Nat)
  block_hashes : Map Nat Nat
  pending_requests : List PendingReq
  account_requests : Map Nat (List Nat)
  storage_requests : Map (Nat × Nat) (List Nat)
  block_requests : Map Nat (List Nat)
  block_id : Option BlockId
  sent : List (Nat × Reply)
  spawnLog : List PendingReq

/-- `BackendHandler::new`: empty caches, listener tables and request list. -/
def Handler.new (fdb : Bool) (bid : Option BlockId) : Handler :=
  { file_db_factory := fdb
    accounts := []
    storage := []
    block_hashes := []
    pending_requests := []
    account_requests := []
    storage_requests := []
    block_requests := []
    block_id := bid
    sent := []
    spawnLog := [] }

/-- Record a send on a reply channel. -/
def sendTo (s : Handler) (l : Nat) (r : Reply) : Handler :=
  { s with sent := s.sent ++ [(l, r)] }

/-- `pending_requests.push(req)` (also recorded in the ghost spawn log). -/
def pushRequest (s : Handler) (r : PendingReq) : Handler :=
  { s with pending_requests := s.pending_requests ++ [r]
           spawnLog := s.spawnLog ++ [r] }

/-- `BackendHandler::get_account_req`: if a local archive capability is
configured, read `block_id.unwrap().as_u64().unwrap()` (a panic, modelled
as `none`, when the pin is unset or not a plain number) and try
`history_by_block_number`; on its error fall back to the remote provider at
`block_id.unwrap_or_default()`. -/
def get_account_req (env : Env) (s : Handler) (addr : Nat) :
    Option PendingReq :=
  if s.file_db_factory then
    match s.block_id with
    | none => none
    | some bid =>
      match bid.as_u64 with
      | none => none
      | some bn =>
        if env.historyOk bn then
          some (.account addr (.localDb bn))
        else
          some (.account addr (.remote (s.block_id.getD .latest)))
  else
    some (.account addr (.remote (s.block_id.getD .latest)))

/-- `BackendHandler::request_account`: coalesce on the listener table; on a
vacant key insert a singleton listener list and push one provider future. -/
def request_account (env : Env) (s : Handler) (addr : Nat) (listener : Nat) :
    Option Handler :=
  match Map.find? s.account_requests addr with
  | some ls =>
      some { s with
        account_requests := Map.ins s.account_requests addr (ls ++ [listener]) }
  | none =>
      (get_account_req env s addr).map (fun req =>
        pushRequest
          { s with
            account_requests := Map.ins s.account_requests addr [listener] }
          req)

/-- `BackendHandler::request_account_storage`: coalesce on the listener
table; on a vacant key insert a singleton listener list, then spawn either
the local-archive future (pin unwrapped to a number - a panic, modelled as
`none`, otherwise) or the remote future. -/
def request_account_storage (env : Env) (s : Handler) (addr idx : Nat)
    (listener : Nat) : Option Handler :=
  match Map.find? s.storage_requests (addr, idx) with
  | some ls =>
      some { s with
        storage_requests :=
          Map.ins s.storage_requests (addr, idx) (ls ++ [listener]) }
  | none =>
      let s1 :=
        { s with
          storage_requests := Map.ins s.storage_requests (addr, idx) [listener] }
      if s.file_db_factory then
        match s.block_id with
        | none => none
        | some bid =>
          match bid.as_u64 with
          | none => none
          | some bn =>
            if env.historyOk bn then
              some (pushRequest s1 (.storage addr idx (.localDb bn)))
            else
              some (pushRequest s1
                (.storage addr idx (.remote (s.block_id.getD .latest))))
      else
        some (pushRequest s1
          (.storage addr idx (.remote (s.block_id.getD .latest))))

/-- `BackendHandler::request_hash`: coalesce on the listener table; on a
vacant key insert a singleton listener list and push one remote block-hash
future (no local-archive tier). -/
def request_hash (s : Handler) (number : Nat) (listener : Nat) : Handler :=
  match Map.find? s.block_requests number with
  | some ls =>
      { s with
        block_requests := Map.ins s.block_requests number (ls ++ [listener]) }
  | none =>
      pushRequest
        { s with block_requests := Map.ins s.block_requests number [listener] }
        (.blockHash number)

/-- `BackendHandler::on_request`: cache check under a read lock, then
dispatch (`none` = panic inside a dispatcher). -/
def on_request (env : Env) (s : Handler) (req : BackendRequest) :
    Option Handler :=
  match req with
  | .Basic addr sender =>
    match Map.find? s.accounts addr with
    | some basic => some (sendTo s sender (.account (.ok basic)))
    | none => request_account env s addr sender
  | .BlockHash number sender =>
    match Map.find? s.block_hashes number with
    | some h => some (sendTo s sender (.blockHash (.ok h)))
    | none => some (request_hash s number sender)
  | .FullBlock id sender => some (pushRequest s (.fullBlock id sender))
  | .Transaction h sender => some (pushRequest s (.transaction h sender))
  | .Storage addr idx sender =>
    match (Map.find? s.storage addr).bind (fun acc => Map.find? acc idx) with
    | some v => some (sendTo s sender (.storage (.ok v)))
    | none => request_account_storage env s addr idx sender
  | .SetPinnedBlock bid => some { s with block_id := some bid }
  | .UpdateAddress data =>
      some { s with
        accounts := data.foldl (fun m p => Map.ins m p.1 p.2) s.accounts }
  | .UpdateStorage data =>
      some { s with
        storage := data.foldl (fun m p => Map.ins m p.1 p.2) s.storage }
  | .UpdateBlockHash data =>
      some { s with
        block_hashes :=
          data.foldl (fun m p => Map.ins m p.1 p.2) s.block_hashes }
  | .AnyRequest => some (pushRequest s .anyRequest)

/-- The body of the block-hash future (`request_hash`'s async block):
`Some(block)` yields the header hash, `None` yields `KECCAK_EMPTY` and logs
a warning (second component), an error is propagated. -/
def fetchBlockHash (env : Env) (resp : Except Nat (Option Block)) :
    Except Nat Nat × Bool :=
  match resp with
  | .ok (some b) => (.ok b.headerHash, false)
  | .ok none => (.ok (KECCAK_EMPTY env), true)
  | .error e => (.error e, false)

/-- The revm-style account built at account-fetch completion: non-empty code
keeps its bytes and hashes them, empty code gets empty bytes and
`KECCAK_EMPTY`. -/
def mkAccountInfo (env : Env) (balance nonce : Nat) (code : List Nat) :
    AccountInfo :=
  let pair := if code ≠ [] then (code, env.keccak code) else ([], KECCAK_EMPTY env)
  { balance := balance, nonce := nonce, code := pair.1, code_hash := pair.2 }

/-- `account_requests.remove(&addr)` followed by fan-out of `r` to every
listener that was registered. -/
def notifyAccount (s : Handler) (addr : Nat)
    (r : Except DatabaseError AccountInfo) : Handler :=
  { s with
    account_requests := Map.del s.account_requests addr
    sent := s.sent ++
      ((Map.find? s.account_requests addr).getD []).map
        (fun l => (l, Reply.account r)) }

/-- `storage_requests.remove(&(addr, idx))` followed by fan-out. -/
def notifyStorage (s : Handler) (addr idx : Nat)
    (r : Except DatabaseError Nat) : Handler :=
  { s with
    storage_requests := Map.del s.storage_requests (addr, idx)
    sent := s.sent ++
      ((Map.find? s.storage_requests (addr, idx)).getD []).map
        (fun l => (l, Reply.storage r)) }

/-- `block_requests.remove(&number)` followed by fan-out. -/
def notifyBlock (s : Handler) (number : Nat)
    (r : Except DatabaseError Nat) : Handler :=
  { s with
    block_requests := Map.del s.block_requests number
    sent := s.sent ++
      ((Map.find? s.block_requests number).getD []).map
        (fun l => (l, Reply.blockHash r)) }

/-- Account completion handler (`poll`, `ProviderRequest::Account` ready):
on `Ok` build the account, insert it into the accounts map and fan out; on
`Err` wrap in `GetAccount` (same shared cause to every listener) and fan
out without touching any cache map. -/
def handleAccountDone (env : Env) (s : Handler) (addr : Nat)
    (resp : Except Nat (Nat × Nat × List Nat)) : Handler :=
  match resp with
  | .error e => notifyAccount s addr (.error (.GetAccount addr e))
  | .ok (balance, nonce, code) =>
      let acc := mkAccountInfo env balance nonce code
      notifyAccount { s with accounts := Map.ins s.accounts addr acc } addr
        (.ok acc)

/-- Storage completion handler: on `Ok` insert via
`storage.entry(addr).or_default().insert(idx, value)` and fan out; on `Err`
wrap in `GetStorage` and fan out without touching any cache map. -/
def handleStorageDone (s : Handler) (addr idx : Nat)
    (resp : Except Nat Nat) : Handler :=
  match resp with
  | .error e => notifyStorage s addr idx (.error (.GetStorage addr idx e))
  | .ok value =>
      notifyStorage
        { s with
          storage := Map.ins s.storage addr
            (Map.ins ((Map.find? s.storage addr).getD []) idx value) }
        addr idx (.ok value)

/-- Block-hash completion handler: on `Ok` insert under key
`U256::from(number)` and fan out; on `Err` wrap in `GetBlockHash` and fan
out without touching any cache map. -/
def handleBlockHashDone (s : Handler) (number : Nat)
    (value : Except Nat Nat) : Handler :=
  match value with
  | .error e => notifyBlock s number (.error (.GetBlockHash number e))
  | .ok v =>
      notifyBlock { s with block_hashes := Map.ins s.block_hashes number v }
        number (.ok v)

/-- Does a pending future match an account fetch for `addr`? -/
def isAccountReq (addr : Nat) : PendingReq → Bool
  | .account a _ => a == addr
  | _ => false

/-- Does a pending future match a storage fetch for `(addr, idx)`? -/
def isStorageReq (addr idx : Nat) : PendingReq → Bool
  | .storage a i _ => a == addr && i == idx
  | _ => false

/-- Does a pending future match a block-hash fetch for `number`? -/
def isBlockHashReq (number : Nat) : PendingReq → Bool
  | .blockHash n => n == number
  | _ => false

/-- Remove the first list element satisfying `p` (the future taken out of
`pending_requests` by `swap_remove` when it completes). -/
def removeFirst {α : Type} (p : α → Bool) : List α → List α
  | [] => []
  | x :: rest => if p x then rest else x :: removeFirst p rest

/-- A completion event: a ready provider future together with the
provider's response. -/
inductive Completion : Type
  | account (addr : Nat) (resp : Except Nat (Nat × Nat × List Nat))
  | storage (addr : Nat) (idx : Nat) (resp : Except Nat Nat)
  | blockHash (number : Nat) (resp : Except Nat (Option Block))
  | fullBlock (id : BlockId) (sender : Nat) (resp : Except Nat (Option Block))
  | transaction (h : Nat) (sender : Nat) (resp : Except Nat Nat)
  | anyDone
deriving Repr

/-- One completion step of `poll`: only meaningful when a matching future is
pending (it is removed, then the completion handler runs); otherwise the
state is unchanged. -/
def completeStep (env : Env) (s : Handler) (c : Completion) : Handler :=
  match c with
  | .account addr resp =>
      if s.pending_requests.any (isAccountReq addr) then
        handleAccountDone env
          { s with
            pending_requests :=
              removeFirst (isAccountReq addr) s.pending_requests }
          addr resp
      else s
  | .storage addr idx resp =>
      if s.pending_requests.any (isStorageReq addr idx) then
        handleStorageDone
          { s with
            pending_requests :=
              removeFirst (isStorageReq addr idx) s.pending_requests }
          addr idx resp
      else s
  | .blockHash number resp =>
      if s.pending_requests.any (isBlockHashReq number) then
        handleBlockHashDone
          { s with
            pending_requests :=
              removeFirst (isBlockHashReq number) s.pending_requests }
          number (fetchBlockHash env resp).1
      else s
  | .fullBlock id sender resp =>
      if s.pending_requests.any (fun r => r == .fullBlock id sender) then
        let s1 :=
          { s with
            pending_requests :=
              removeFirst (fun r => r == .fullBlock id sender)
                s.pending_requests }
        let msg : Except DatabaseError Block :=
          match resp with
          | .ok (some b) => .ok b
          | .ok none => .error (.BlockNotFound id)
          | .error e => .error (.GetFullBlock id e)
        sendTo s1 sender (.fullBlock msg)
      else s
  | .transaction h sender resp =>
      if s.pending_requests.any (fun r => r == .transaction h sender) then
        let s1 :=
          { s with
            pending_requests :=
              removeFirst (fun r => r == .transaction h sender)
                s.pending_requests }
        let msg : Except DatabaseError Nat :=
          match resp with
          | .ok tx => .ok tx
          | .error e => .error (.GetTransaction h e)
        sendTo s1 sender (.transaction msg)
      else s
  | .anyDone =>
      if s.pending_requests.any (fun r => r == .anyRequest) then
        { s with
          pending_requests :=
            removeFirst (fun r => r == .anyRequest) s.pending_requests }
      else s

/-- An event of the handler's event loop. -/
inductive Event : Type
  | req (r : BackendRequest)
  | complete (c : Completion)

/-- One step of the event loop (`none` = panic). -/
def step (env : Env) (s : Handler) : Event → Option Handler
  | .req r => on_request env s r
  | .complete c => some (completeStep env s c)

/-- Run a trace of events (`none` as soon as any step panics). -/
def run (env : Env) : Handler → List Event → Option Handler
  | s, [] => some s
  | s, e :: rest =>
    match step env s e with
    | some t => run env t rest
    | none => none

/-- `SharedBackend::do_get_basic`: the handler's reply is mapped through
`.map(Some)`, so a successful reply is always `Ok(Some(_))`. -/
def do_get_basic (reply : Except DatabaseError AccountInfo) :
    Except DatabaseError (Option AccountInfo) :=
  reply.map some

/-- `DatabaseRef::basic_ref` for `SharedBackend`: delegates to
`do_get_basic`; the error branch only logs and returns the error
unchanged. -/
def basic_ref (reply : Except DatabaseError AccountInfo) :
    Except DatabaseError (Option AccountInfo) :=
  do_get_basic reply

/-- The source an account/storage spawn will use, `none` when the
`block_id.unwrap().as_u64().unwrap()` chain panics. -/
def spawnSrc (env : Env) (s : Handler) : Option Source :=
  if s.file_db_factory then
    match s.block_id with
    | none => none
    | some bid =>
      match bid.as_u64 with
      | none => none
      | some bn =>
        if env.historyOk bn then some (.localDb bn)
        else some (.remote (s.block_id.getD .latest))
  else some (.remote (s.block_id.getD .latest))

/-- A cacheable key: an address, an (address, slot) pair, or a block
number. -/
inductive CKey : Type
  | acct (a : Nat)
  | slot (a : Nat) (i : Nat)
  | blkh (n : Nat)
deriving DecidableEq, Repr

/-- Is key `K` present in the shared memory store? -/
def cacheHas (s : Handler) : CKey → Bool
  | .acct a => (Map.find? s.accounts a).isSome
  | .slot a i => ((Map.find? s.storage a).bind (fun m => Map.find? m i)).isSome
  | .blkh n => (Map.find? s.block_hashes n).isSome

/-- Does a spawned provider future target key `K`? -/
def spawnMatches : CKey → PendingReq → Bool
  | .acct a, p => isAccountReq a p
  | .slot a i, p => isStorageReq a i p
  | .blkh n, p => isBlockHashReq n p

/-- Number of provider futures ever spawned for key `K`. -/
def spawnCount (K : CKey) (s : Handler) : Nat :=
  s.spawnLog.countP (spawnMatches K)

/-- Does the event bulk-overwrite the per-address storage map containing
`K`?  (Only `UpdateStorage` replaces a whole per-address map and can thus
drop a cached slot; account and block-hash bulk updates only insert.) -/
def overwritesKey : CKey → Event → Bool
  | .slot a _, .req (.UpdateStorage data) => data.any (fun p => p.1 == a)
  | _, _ => false

/-- A listener-table key has exactly one matching provider future in
`pending_requests`; a key not in the table has none. -/
def countInv (s : Handler) : Prop :=
  (∀ a, s.pending_requests.countP (isAccountReq a) =
    (if (Map.find? s.account_requests a).isSome then 1 else 0)) ∧
  (∀ a i, s.pending_requests.countP (isStorageReq a i) =
    (if (Map.find? s.storage_requests (a, i)).isSome then 1 else 0)) ∧
  (∀ n, s.pending_requests.countP (isBlockHashReq n) =
    (if (Map.find? s.block_requests n).isSome then 1 else 0))

/-- Does a pending provider future query the local archive tier? -/
def PendingReq.usesLocal : PendingReq → Bool
  | .account _ (.localDb _) => true
  | .storage _ _ (.localDb _) => true
  | _ => false

/-- A concrete environment used by the witnesses. -/
def env0 : Env :=
  { keccak := fun bs => bs.length, historyOk := fun _ => true }

/-! ### Association-map lemmas -/

theorem Map.find?_ins_self {K V : Type} [DecidableEq K] (m : Map K V) (k : K)
    (v : V) : Map.find? (Map.ins m k v) k = some v := by
  induction m with
  | nil => simp [Map.ins, Map.find?]
  | cons p rest ih =>
      by_cases h : p.1 = k
      · simp [Map.ins, Map.find?, h]
      · simp [Map.ins, Map.find?, h, ih]

theorem Map.find?_ins_ne {K V : Type} [DecidableEq K] (m : Map K V)
    (k k' : K) (v : V) (h : k' ≠ k) :
    Map.find? (Map.ins m k v) k' = Map.find? m k' := by
  have h' : ¬ k = k' := fun hh => h (Eq.symm hh)
  induction m with
  | nil => simp [Map.ins, Map.find?, h']
  | cons p rest ih =>
      obtain ⟨a, b⟩ := p
      by_cases hp : a = k
      · subst hp
        simp [Map.ins, Map.find?, h']
      · simp [Map.ins, Map.find?, hp, ih]

theorem Map.ins_ins {K V : Type} [DecidableEq K] (m : Map K V) (k : K)
    (v w : V) : Map.ins (Map.ins m k v) k w = Map.ins m k w := by
  induction m with
  | nil => simp [Map.ins]
  | cons p rest ih =>
      by_cases h : p.1 = k
      · simp [Map.ins, h]
      · simp [Map.ins, h, ih]

theorem Map.ins_self_of_find? {K V : Type} [DecidableEq K] (m : Map K V)
    (k : K) (v : V) (h : Map.find? m k = some v) : Map.ins m k v = m := by
  induction m with
  | nil => simp [Map.find?] at h
  | cons p rest ih =>
      obtain ⟨a, b⟩ := p
      by_cases hp : a = k
      · subst hp
        simp [Map.find?] at h
        simp [Map.ins, h]
      · simp [Map.find?, hp] at h
        simp [Map.ins, hp, ih h]

theorem Map.find?_del_self {K V : Type} [DecidableEq K] (m : Map K V)
    (k : K) : Map.find? (Map.del m k) k = none := by
  induction m with
  | nil => simp [Map.del, Map.find?]
  | cons p rest ih =>
      by_cases h : p.1 = k
      · simp [Map.del, h, ih]
      · simp [Map.del, Map.find?, h, ih]

theorem Map.find?_del_ne {K V : Type} [DecidableEq K] (m : Map K V)
    (k k' : K) (h : k' ≠ k) :
    Map.find? (Map.del m k) k' = Map.find? m k' := by
  have h' : ¬ k = k' := fun hh => h (Eq.symm hh)
  induction m with
  | nil => simp [Map.del]
  | cons p rest ih =>
      obtain ⟨a, b⟩ := p
      by_cases hp : a = k
      · subst hp
        simp [Map.del, Map.find?, h', ih]
      · simp [Map.del, Map.find?, hp, ih]

theorem Map.find?_ins_isSome {K V : Type} [DecidableEq K] (m : Map K V)
    (k a : K) (v : V) (h : (Map.find? m k).isSome = true) :
    (Map.find? (Map.ins m a v) k).isSome = true := by
  by_cases hk : k = a
  · subst hk
    simp [Map.find?_ins_self]
  · rw [Map.find?_ins_ne m a k v hk]
    exact h

theorem Map.find?_foldl_ins_isSome {K V : Type} [DecidableEq K]
    (data : List (K × V)) (m : Map K V) (k : K)
    (h : (Map.find? m k).isSome = true) :
    (Map.find? (data.foldl (fun acc p => Map.ins acc p.1 p.2) m) k).isSome
      = true := by
  induction data generalizing m with
  | nil => exact h
  | cons p rest ih =>
      exact ih (Map.ins m p.1 p.2) (Map.find?_ins_isSome m k p.1 p.2 h)

theorem Map.find?_foldl_ins_of_not_mem {K V : Type} [DecidableEq K]
    [BEq K] [LawfulBEq K]
    (data : List (K × V)) (m : Map K V) (k : K)
    (h : data.any (fun p => p.1 == k) = false) :
    Map.find? (data.foldl (fun acc p => Map.ins acc p.1 p.2) m) k
      = Map.find? m k := by
  induction data generalizing m with
  | nil => rfl
  | cons p rest ih =>
      obtain ⟨a, b⟩ := p
      simp only [List.any_cons, Bool.or_eq_false_iff] at h
      have hne : k ≠ a := by
        intro hh
        subst hh
        simp at h
      rw [List.foldl_cons, ih (Map.ins m a b) h.2,
        Map.find?_ins_ne m a k b hne]

/-! ### `removeFirst` / `countP` lemmas -/

theorem countP_removeFirst_of_any {α : Type} (p : α → Bool) (l : List α)
    (h : l.any p = true) :
    (removeFirst p l).countP p = l.countP p - 1 := by
  induction l with
  | nil => simp at h
  | cons x rest ih =>
      cases hx : p x
      · simp only [List.any_cons, hx, Bool.false_or] at h
        simp [removeFirst, hx, List.countP_cons, ih h]
      · simp [removeFirst, hx, List.countP_cons]

theorem countP_removeFirst_disjoint {α : Type} (p q : α → Bool) (l : List α)
    (h : ∀ x, p x = true → q x = false) :
    (removeFirst p l).countP q = l.countP q := by
  induction l with
  | nil => rfl
  | cons x rest ih =>
      cases hx : p x
      · simp [removeFirst, hx, List.countP_cons, ih]
      · simp [removeFirst, hx, List.countP_cons, h x hx]

theorem countP_eq_zero_of_any_eq_false {α : Type} (p : α → Bool) (l : List α)
    (h : l.any p = false) : l.countP p = 0 := by
  induction l with
  | nil => rfl
  | cons x rest ih =>
      simp only [List.any_cons, Bool.or_eq_false_iff] at h
      simp [List.countP_cons, h.1, ih h.2]

/-! ### Characterisation of the tiered spawn source -/

theorem get_account_req_eq_spawnSrc (env : Env) (s : Handler) (addr : Nat) :
    get_account_req env s addr =
      (spawnSrc env s).map (fun src => .account addr src) := by
  unfold get_account_req spawnSrc
  split
  · cases s.block_id with
    | none => rfl
    | some bid =>
        cases bid <;> simp [BlockId.as_u64] <;> split <;> rfl
  · rfl

theorem request_account_storage_vacant (env : Env) (s : Handler)
    (addr idx l : Nat)
    (hr : Map.find? s.storage_requests (addr, idx) = none) :
    request_account_storage env s addr idx l =
      (spawnSrc env s).map (fun src =>
        pushRequest
          { s with
            storage_requests :=
              Map.ins s.storage_requests (addr, idx) [l] }
          (.storage addr idx src)) := by
  unfold request_account_storage spawnSrc
  simp only [hr]
  split
  · cases s.block_id with
    | none => rfl
    | some bid =>
        cases bid <;> simp [BlockId.as_u64] <;> split <;> rfl
  · rfl

theorem on_request_basic_vacant (env : Env) (s : Handler) (addr l : Nat)
    (req : PendingReq) (hc : Map.find? s.accounts addr = none)
    (hr : Map.find? s.account_requests addr = none)
    (hreq : get_account_req env s addr = some req) :
    on_request env s (.Basic addr l) =
      some (pushRequest
        { s with account_requests := Map.ins s.account_requests addr [l] }
        req) := by
  simp [on_request, hc, request_account, hr, hreq]

theorem on_request_blockhash_vacant (s : Handler) (number l : Nat)
    (env : Env) (hc : Map.find? s.block_hashes number = none)
    (hr : Map.find? s.block_requests number = none) :
    on_request env s (.BlockHash number l) =
      some (pushRequest
        { s with block_requests := Map.ins s.block_requests number [l] }
        (.blockHash number)) := by
  simp [on_request, hc, request_hash, hr]

/-! ### Coalescing fold lemmas: occupied listener entries only grow -/

theorem run_basic_occupied (env : Env) (ls : List Nat) :
    ∀ (s : Handler) (addr : Nat) (xs : List Nat),
    Map.find? s.accounts addr = none →
    Map.find? s.account_requests addr = some xs →
    run env s (ls.map (fun l => Event.req (.Basic addr l))) =
      some { s with
        account_requests := Map.ins s.account_requests addr (xs ++ ls) } := by
  induction ls with
  | nil =>
      intro s addr xs hc hr
      simp [run, Map.ins_self_of_find? _ _ _ hr]
  | cons l rest ih =>
      intro s addr xs hc hr
      have hstep := ih
        { s with account_requests := Map.ins s.account_requests addr (xs ++ [l]) }
        addr (xs ++ [l]) hc (Map.find?_ins_self _ _ _)
      simp only [List.map_cons, run, step, on_request, hc, request_account, hr]
      rw [hstep]
      simp [Map.ins_ins]

theorem run_storage_occupied (env : Env) (ls : List Nat) :
    ∀ (s : Handler) (addr idx : Nat) (xs : List Nat),
    (Map.find? s.storage addr).bind (fun acc => Map.find? acc idx) = none →
    Map.find? s.storage_requests (addr, idx) = some xs →
    run env s (ls.map (fun l => Event.req (.Storage addr idx l))) =
      some { s with
        storage_requests :=
          Map.ins s.storage_requests (addr, idx) (xs ++ ls) } := by
  induction ls with
  | nil =>
      intro s addr idx xs hc hr
      simp [run, Map.ins_self_of_find? _ _ _ hr]
  | cons l rest ih =>
      intro s addr idx xs hc hr
      have hstep := ih
        { s with
          storage_requests :=
            Map.ins s.storage_requests (addr, idx) (xs ++ [l]) }
        addr idx (xs ++ [l]) hc (Map.find?_ins_self _ _ _)
      simp only [List.map_cons, run, step, on_request, hc,
        request_account_storage, hr]
      rw [hstep]
      simp [Map.ins_ins]

theorem run_blockhash_occupied (env : Env) (ls : List Nat) :
    ∀ (s : Handler) (number : Nat) (xs : List Nat),
    Map.find? s.block_hashes number = none →
    Map.find? s.block_requests number = some xs →
    run env s (ls.map (fun l => Event.req (.BlockHash number l))) =
      some { s with
        block_requests := Map.ins s.block_requests number (xs ++ ls) } := by
  induction ls with
  | nil =>
      intro s number xs hc hr
      simp [run, Map.ins_self_of_find? _ _ _ hr]
  | cons l rest ih =>
      intro s number xs hc hr
      have hstep := ih
        { s with block_requests := Map.ins s.block_requests number (xs ++ [l]) }
        number (xs ++ [l]) hc (Map.find?_ins_self _ _ _)
      simp only [List.map_cons, run, step, on_request, hc, request_hash, hr]
      rw [hstep]
      simp [Map.ins_ins]

/-! ### Cache keys and the cache-hit exclusivity machinery -/

theorem preserved_of_frame (s t : Handler) (K : CKey)
    (h1 : t.accounts = s.accounts) (h2 : t.storage = s.storage)
    (h3 : t.block_hashes = s.block_hashes) (h4 : t.spawnLog = s.spawnLog)
    (hc : cacheHas s K = true) :
    cacheHas t K = true ∧ spawnCount K t = spawnCount K s := by
  have e1 : cacheHas t K = cacheHas s K := by
    cases K <;> simp [cacheHas, h1, h2, h3]
  exact ⟨e1 ▸ hc, by simp [spawnCount, h4]⟩

theorem preserved_of_push (s t : Handler) (K : CKey) (r : PendingReq)
    (h1 : t.accounts = s.accounts) (h2 : t.storage = s.storage)
    (h3 : t.block_hashes = s.block_hashes)
    (h4 : t.spawnLog = s.spawnLog ++ [r])
    (hm : spawnMatches K r = false) (hc : cacheHas s K = true) :
    cacheHas t K = true ∧ spawnCount K t = spawnCount K s := by
  have e1 : cacheHas t K = cacheHas s K := by
    cases K <;> simp [cacheHas, h1, h2, h3]
  refine ⟨e1 ▸ hc, ?_⟩
  simp [spawnCount, h4, List.countP_append, List.countP_cons, hm]

theorem step_preserves_cached (env : Env) (s t : Handler) (e : Event)
    (K : CKey) (hstep : step env s e = some t)
    (hov : overwritesKey K e = false) (hc : cacheHas s K = true) :
    cacheHas t K = true ∧ spawnCount K t = spawnCount K s := by
  cases e with
  | req r =>
    cases r with
    | Basic addr sender =>
        simp only [step, on_request] at hstep
        cases hfind : Map.find? s.accounts addr with
        | some v =>
            simp only [hfind] at hstep
            injection hstep with h
            subst h
            exact preserved_of_frame s _ K rfl rfl rfl rfl hc
        | none =>
            simp only [hfind, request_account] at hstep
            cases hreq : Map.find? s.account_requests addr with
            | some ls =>
                simp only [hreq] at hstep
                injection hstep with h
                subst h
                exact preserved_of_frame s _ K rfl rfl rfl rfl hc
            | none =>
                rw [hreq] at hstep
                simp only [get_account_req_eq_spawnSrc, Option.map_map] at hstep
                rcases Option.map_eq_some'.mp hstep with ⟨src, hsrc, ht⟩
                subst ht
                refine preserved_of_push s _ K (.account addr src)
                  rfl rfl rfl rfl ?_ hc
                cases K with
                | acct a =>
                    by_cases haa : addr = a
                    · subst haa
                      simp [cacheHas, hfind] at hc
                    · simp [spawnMatches, isAccountReq, haa]
                | slot a i => simp [spawnMatches, isStorageReq]
                | blkh n => simp [spawnMatches, isBlockHashReq]
    | Storage addr idx sender =>
        simp only [step, on_request] at hstep
        cases hfind :
            (Map.find? s.storage addr).bind (fun acc => Map.find? acc idx) with
        | some v =>
            simp only [hfind] at hstep
            injection hstep with h
            subst h
            exact preserved_of_frame s _ K rfl rfl rfl rfl hc
        | none =>
            simp only [hfind] at hstep
            cases hreq : Map.find? s.storage_requests (addr, idx) with
            | some ls =>
                simp only [request_account_storage, hreq] at hstep
                injection hstep with h
                subst h
                exact preserved_of_frame s _ K rfl rfl rfl rfl hc
            | none =>
                rw [request_account_storage_vacant env s addr idx sender hreq]
                  at hstep
                rcases Option.map_eq_some'.mp hstep with ⟨src, hsrc, ht⟩
                subst ht
                refine preserved_of_push s _ K (.storage addr idx src)
                  rfl rfl rfl rfl ?_ hc
                cases K with
                | acct a => simp [spawnMatches, isAccountReq]
                | slot a i =>
                    by_cases h1 : addr = a
                    · subst h1
                      by_cases h2 : idx = i
                      · subst h2
                        simp [cacheHas, hfind] at hc
                      · simp [spawnMatches, isStorageReq, h2]
                    · simp [spawnMatches, isStorageReq, h1]
                | blkh n => simp [spawnMatches, isBlockHashReq]
    | BlockHash number sender =>
        simp only [step, on_request] at hstep
        cases hfind : Map.find? s.block_hashes number with
        | some v =>
            simp only [hfind] at hstep
            injection hstep with h
            subst h
            exact preserved_of_frame s _ K rfl rfl rfl rfl hc
        | none =>
            simp only [hfind, request_hash] at hstep
            cases hreq : Map.find? s.block_requests number with
            | some ls =>
                simp only [hreq] at hstep
                injection hstep with h
                subst h
                exact preserved_of_frame s _ K rfl rfl rfl rfl hc
            | none =>
                simp only [hreq] at hstep
                injection hstep with h
                subst h
                refine preserved_of_push s _ K (.blockHash number)
                  rfl rfl rfl rfl ?_ hc
                cases K with
                | acct a => simp [spawnMatches, isAccountReq]
                | slot a i => simp [spawnMatches, isStorageReq]
                | blkh n =>
                    by_cases hnn : number = n
                    · subst hnn
                      simp [cacheHas, hfind] at hc
                    · simp [spawnMatches, isBlockHashReq, hnn]
    | FullBlock id sender =>
        simp only [step, on_request] at hstep
        injection hstep with h
        subst h
        refine preserved_of_push s _ K (.fullBlock id sender)
          rfl rfl rfl rfl ?_ hc
        cases K <;>
          simp [spawnMatches, isAccountReq, isStorageReq, isBlockHashReq]
    | Transaction th sender =>
        simp only [step, on_request] at hstep
        injection hstep with h
        subst h
        refine preserved_of_push s _ K (.transaction th sender)
          rfl rfl rfl rfl ?_ hc
        cases K <;>
          simp [spawnMatches, isAccountReq, isStorageReq, isBlockHashReq]
    | AnyRequest =>
        simp only [step, on_request] at hstep
        injection hstep with h
        subst h
        refine preserved_of_push s _ K .anyRequest rfl rfl rfl rfl ?_ hc
        cases K <;>
          simp [spawnMatches, isAccountReq, isStorageReq, isBlockHashReq]
    | SetPinnedBlock bid =>
        simp only [step, on_request] at hstep
        injection hstep with h
        subst h
        exact preserved_of_frame s _ K rfl rfl rfl rfl hc
    | UpdateAddress data =>
        simp only [step, on_request] at hstep
        injection hstep with h
        subst h
        constructor
        · cases K with
          | acct a =>
              simpa [cacheHas] using
                Map.find?_foldl_ins_isSome data s.accounts a
                  (by simpa [cacheHas] using hc)
          | slot a i => simpa [cacheHas] using hc
          | blkh n => simpa [cacheHas] using hc
        · rfl
    | UpdateStorage data =>
        simp only [step, on_request] at hstep
        injection hstep with h
        subst h
        constructor
        · cases K with
          | acct a => simpa [cacheHas] using hc
          | slot a i =>
              simp only [overwritesKey] at hov
              simpa [cacheHas,
                Map.find?_foldl_ins_of_not_mem data s.storage a hov] using hc
          | blkh n => simpa [cacheHas] using hc
        · rfl
    | UpdateBlockHash data =>
        simp only [step, on_request] at hstep
        injection hstep with h
        subst h
        constructor
        · cases K with
          | acct a => simpa [cacheHas] using hc
          | slot a i => simpa [cacheHas] using hc
          | blkh n =>
              simpa [cacheHas] using
                Map.find?_foldl_ins_isSome data s.block_hashes n
                  (by simpa [cacheHas] using hc)
        · rfl
  | complete c =>
    simp only [step] at hstep
    injection hstep with h
    subst h
    cases c with
    | account addr resp =>
        by_cases hg : s.pending_requests.any (isAccountReq addr) = true
        · simp only [completeStep, hg, if_true]
          cases resp with
          | error e => exact preserved_of_frame s _ K rfl rfl rfl rfl hc
          | ok val =>
              obtain ⟨b, n, code⟩ := val
              constructor
              · cases K with
                | acct a =>
                    simpa [cacheHas, handleAccountDone, notifyAccount] using
                      Map.find?_ins_isSome s.accounts a addr
                        (mkAccountInfo env b n code)
                        (by simpa [cacheHas] using hc)
                | slot a i =>
                    simpa [cacheHas, handleAccountDone, notifyAccount] using hc
                | blkh nn =>
                    simpa [cacheHas, handleAccountDone, notifyAccount] using hc
              · simp [spawnCount, handleAccountDone, notifyAccount]
        · simp only [completeStep, hg, if_false]
          exact ⟨hc, rfl⟩
    | storage addr idx resp =>
        by_cases hg : s.pending_requests.any (isStorageReq addr idx) = true
        · simp only [completeStep, hg, if_true]
          cases resp with
          | error e => exact preserved_of_frame s _ K rfl rfl rfl rfl hc
          | ok value =>
              constructor
              · cases K with
                | acct a =>
                    simpa [cacheHas, handleStorageDone, notifyStorage] using hc
                | slot a i =>
                    simp only [cacheHas, handleStorageDone, notifyStorage]
                    by_cases h1 : a = addr
                    · subst h1
                      rw [Map.find?_ins_self]
                      by_cases h2 : i = idx
                      · subst h2
                        simp [Map.find?_ins_self]
                      · cases hm0 : Map.find? s.storage a with
                        | none => simp [cacheHas, hm0] at hc
                        | some m0 =>
                            simp only [cacheHas, hm0, Option.some_bind] at hc
                            simp [hm0, Map.find?_ins_ne _ _ _ _ h2, hc]
                    · rw [Map.find?_ins_ne _ _ _ _ h1]
                      simpa [cacheHas] using hc
                | blkh nn =>
                    simpa [cacheHas, handleStorageDone, notifyStorage] using hc
              · simp [spawnCount, handleStorageDone, notifyStorage]
        · simp only [completeStep, hg, if_false]
          exact ⟨hc, rfl⟩
    | blockHash number resp =>
        by_cases hg : s.pending_requests.any (isBlockHashReq number) = true
        · simp only [completeStep, hg, if_true]
          cases hv : (fetchBlockHash env resp).1 with
          | error e =>
              simp only [handleBlockHashDone, hv]
              exact preserved_of_frame s _ K rfl rfl rfl rfl hc
          | ok v =>
              simp only [handleBlockHashDone, hv]
              constructor
              · cases K with
                | acct a => simpa [cacheHas, notifyBlock] using hc
                | slot a i => simpa [cacheHas, notifyBlock] using hc
                | blkh nn =>
                    simpa [cacheHas, notifyBlock] using
                      Map.find?_ins_isSome s.block_hashes nn number v
                        (by simpa [cacheHas] using hc)
              · simp [spawnCount, notifyBlock]
        · simp only [completeStep, hg, if_false]
          exact ⟨hc, rfl⟩
    | fullBlock id sender resp =>
        by_cases hg :
            s.pending_requests.any (fun r => r == .fullBlock id sender) = true
        · simp only [completeStep, hg, if_true]
          exact preserved_of_frame s _ K rfl rfl rfl rfl hc
        · simp only [completeStep, hg, if_false]
          exact ⟨hc, rfl⟩
    | transaction th sender resp =>
        by_cases hg :
            s.pending_requests.any (fun r => r == .transaction th sender) = true
        · simp only [completeStep, hg, if_true]
          exact preserved_of_frame s _ K rfl rfl rfl rfl hc
        · simp only [completeStep, hg, if_false]
          exact ⟨hc, rfl⟩
    | anyDone =>
        by_cases hg :
            s.pending_requests.any (fun r => r == PendingReq.anyRequest) = true
        · simp only [completeStep, hg, if_true]
          exact ⟨hc, rfl⟩
        · simp only [completeStep, hg, if_false]
          exact ⟨hc, rfl⟩

/-- Along any panic-free trace, a key once cached stays cached and no
further provider future is ever spawned for it (bulk storage overwrites of
its address excluded). -/
theorem run_preserves_cached (env : Env) (evs : List Event) :
    ∀ (s t : Handler) (K : CKey), run env s evs = some t →
    (∀ e ∈ evs, overwritesKey K e = false) →
    cacheHas s K = true →
    cacheHas t K = true ∧ spawnCount K t = spawnCount K s := by
  induction evs with
  | nil =>
      intro s t K hrun _ hc
      simp only [run] at hrun
      injection hrun with h
      subst h
      exact ⟨hc, rfl⟩
  | cons e rest ih =>
      intro s t K hrun hov hc
      simp only [run] at hrun
      cases hstep : step env s e with
      | none => rw [hstep] at hrun; exact absurd hrun (by simp)
      | some s1 =>
          rw [hstep] at hrun
          have h1 := step_preserves_cached env s s1 e K hstep
            (hov e (List.mem_cons_self e rest)) hc
          have h2 := ih s1 t K hrun
            (fun e' he' => hov e' (List.mem_cons_of_mem e he')) h1.1
          exact ⟨h2.1, h2.2.trans h1.2⟩

/-! ### Explicit completion-step equations -/

theorem completeStep_account_ok (env : Env) (s : Handler) (addr b n : Nat)
    (code : List Nat) (ls : List Nat)
    (hg : s.pending_requests.any (isAccountReq addr) = true)
    (hl : Map.find? s.account_requests addr = some ls) :
    completeStep env s (.account addr (.ok (b, n, code))) =
      { s with
        pending_requests := removeFirst (isAccountReq addr) s.pending_requests
        accounts := Map.ins s.accounts addr (mkAccountInfo env b n code)
        account_requests := Map.del s.account_requests addr
        sent := s.sent ++ ls.map
          (fun l => (l, Reply.account (.ok (mkAccountInfo env b n code)))) } := by
  simp [completeStep, hg, handleAccountDone, notifyAccount, hl]

theorem completeStep_account_err (env : Env) (s : Handler) (addr e : Nat)
    (ls : List Nat)
    (hg : s.pending_requests.any (isAccountReq addr) = true)
    (hl : Map.find? s.account_requests addr = some ls) :
    completeStep env s (.account addr (.error e)) =
      { s with
        pending_requests := removeFirst (isAccountReq addr) s.pending_requests
        account_requests := Map.del s.account_requests addr
        sent := s.sent ++ ls.map
          (fun l => (l, Reply.account (.error (.GetAccount addr e)))) } := by
  simp [completeStep, hg, handleAccountDone, notifyAccount, hl]

theorem completeStep_storage_ok (env : Env) (s : Handler)
    (addr idx value : Nat) (ls : List Nat)
    (hg : s.pending_requests.any (isStorageReq addr idx) = true)
    (hl : Map.find? s.storage_requests (addr, idx) = some ls) :
    completeStep env s (.storage addr idx (.ok value)) =
      { s with
        pending_requests :=
          removeFirst (isStorageReq addr idx) s.pending_requests
        storage := Map.ins s.storage addr
          (Map.ins ((Map.find? s.storage addr).getD []) idx value)
        storage_requests := Map.del s.storage_requests (addr, idx)
        sent := s.sent ++ ls.map
          (fun l => (l, Reply.storage (.ok value))) } := by
  simp [completeStep, hg, handleStorageDone, notifyStorage, hl]

theorem completeStep_storage_err (env : Env) (s : Handler)
    (addr idx e : Nat) (ls : List Nat)
    (hg : s.pending_requests.any (isStorageReq addr idx) = true)
    (hl : Map.find? s.storage_requests (addr, idx) = some ls) :
    completeStep env s (.storage addr idx (.error e)) =
      { s with
        pending_requests :=
          removeFirst (isStorageReq addr idx) s.pending_requests
        storage_requests := Map.del s.storage_requests (addr, idx)
        sent := s.sent ++ ls.map
          (fun l => (l, Reply.storage (.error (.GetStorage addr idx e)))) } := by
  simp [completeStep, hg, handleStorageDone, notifyStorage, hl]

theorem completeStep_blockhash_found (env : Env) (s : Handler)
    (number : Nat) (b : Block) (ls : List Nat)
    (hg : s.pending_requests.any (isBlockHashReq number) = true)
    (hl : Map.find? s.block_requests number = some ls) :
    completeStep env s (.blockHash number (.ok (some b))) =
      { s with
        pending_requests :=
          removeFirst (isBlockHashReq number) s.pending_requests
        block_hashes := Map.ins s.block_hashes number b.headerHash
        block_requests := Map.del s.block_requests number
        sent := s.sent ++ ls.map
          (fun l => (l, Reply.blockHash (.ok b.headerHash))) } := by
  simp [completeStep, hg, fetchBlockHash, handleBlockHashDone, notifyBlock, hl]

theorem completeStep_blockhash_missing (env : Env) (s : Handler)
    (number : Nat) (ls : List Nat)
    (hg : s.pending_requests.any (isBlockHashReq number) = true)
    (hl : Map.find? s.block_requests number = some ls) :
    completeStep env s (.blockHash number (.ok none)) =
      { s with
        pending_requests :=
          removeFirst (isBlockHashReq number) s.pending_requests
        block_hashes := Map.ins s.block_hashes number (KECCAK_EMPTY env)
        block_requests := Map.del s.block_requests number
        sent := s.sent ++ ls.map
          (fun l => (l, Reply.blockHash (.ok (KECCAK_EMPTY env)))) } := by
  simp [completeStep, hg, fetchBlockHash, handleBlockHashDone, notifyBlock, hl]

theorem completeStep_blockhash_err (env : Env) (s : Handler)
    (number e : Nat) (ls : List Nat)
    (hg : s.pending_requests.any (isBlockHashReq number) = true)
    (hl : Map.find? s.block_requests number = some ls) :
    completeStep env s (.blockHash number (.error e)) =
      { s with
        pending_requests :=
          removeFirst (isBlockHashReq number) s.pending_requests
        block_requests := Map.del s.block_requests number
        sent := s.sent ++ ls.map
          (fun l =>
            (l, Reply.blockHash (.error (.GetBlockHash number e)))) } := by
  simp [completeStep, hg, fetchBlockHash, handleBlockHashDone, notifyBlock, hl]

/-! ### Predicate disjointness helpers -/

theorem isAccountReq_ne_false (addr a : Nat) (hne : ¬ a = addr) :
    ∀ x, isAccountReq addr x = true → isAccountReq a x = false := by
  intro x hx
  cases x with
  | account a' src =>
      simp only [isAccountReq, beq_iff_eq] at hx
      subst hx
      simp only [isAccountReq, beq_eq_false_iff_ne]
      exact fun hh => hne hh.symm
  | storage a' i' src => rfl
  | blockHash n' => rfl
  | fullBlock id sndr => rfl
  | transaction h sndr => rfl
  | anyRequest => rfl

theorem isStorageReq_ne_false (addr idx a i : Nat)
    (hne : ¬ (a = addr ∧ i = idx)) :
    ∀ x, isStorageReq addr idx x = true → isStorageReq a i x = false := by
  intro x hx
  cases x with
  | account a' src => rfl
  | storage a' i' src =>
      simp only [isStorageReq, Bool.and_eq_true, beq_iff_eq] at hx
      obtain ⟨h1, h2⟩ := hx
      subst h1
      subst h2
      cases hb : (a' == a) with
      | false => simp [isStorageReq, hb]
      | true =>
          cases hb2 : (i' == i) with
          | false => simp [isStorageReq, hb, hb2]
          | true =>
              simp only [beq_iff_eq] at hb hb2
              exact absurd ⟨hb.symm, hb2.symm⟩ hne
  | blockHash n' => rfl
  | fullBlock id sndr => rfl
  | transaction h sndr => rfl
  | anyRequest => rfl

theorem isBlockHashReq_ne_false (number n : Nat) (hne : ¬ n = number) :
    ∀ x, isBlockHashReq number x = true → isBlockHashReq n x = false := by
  intro x hx
  cases x with
  | account a' src => rfl
  | storage a' i' src => rfl
  | blockHash n' =>
      simp only [isBlockHashReq, beq_iff_eq] at hx
      subst hx
      simp only [isBlockHashReq, beq_eq_false_iff_ne]
      exact fun hh => hne hh.symm
  | fullBlock id sndr => rfl
  | transaction h sndr => rfl
  | anyRequest => rfl

theorem isAccountReq_of_storage_false (addr idx a : Nat) :
    ∀ x, isStorageReq addr idx x = true → isAccountReq a x = false := by
  intro x hx
  cases x <;> simp_all [isStorageReq, isAccountReq]

theorem isAccountReq_of_blockhash_false (number a : Nat) :
    ∀ x, isBlockHashReq number x = true → isAccountReq a x = false := by
  intro x hx
  cases x <;> simp_all [isBlockHashReq, isAccountReq]

theorem isStorageReq_of_account_false (addr a i : Nat) :
    ∀ x, isAccountReq addr x = true → isStorageReq a i x = false := by
  intro x hx
  cases x <;> simp_all [isStorageReq, isAccountReq]

theorem isStorageReq_of_blockhash_false (number a i : Nat) :
    ∀ x, isBlockHashReq number x = true → isStorageReq a i x = false := by
  intro x hx
  cases x <;> simp_all [isStorageReq, isBlockHashReq]

theorem isBlockHashReq_of_account_false (addr n : Nat) :
    ∀ x, isAccountReq addr x = true → isBlockHashReq n x = false := by
  intro x hx
  cases x <;> simp_all [isAccountReq, isBlockHashReq]

theorem isBlockHashReq_of_storage_false (addr idx n : Nat) :
    ∀ x, isStorageReq addr idx x = true → isBlockHashReq n x = false := by
  intro x hx
  cases x <;> simp_all [isStorageReq, isBlockHashReq]

theorem beq_pending_disjoint (y : PendingReq) (q : PendingReq → Bool)
    (hq : q y = false) : ∀ x, (x == y) = true → q x = false := by
  intro x hx
  have hxy : x = y := by simpa using hx
  subst hxy
  exact hq

/-! ### The listener-table / pending-future invariant -/

theorem isAccountReq_singleton_false (a addr : Nat) (src : Source)
    (h : ¬ a = addr) : isAccountReq a (.account addr src) = false := by
  simp only [isAccountReq, beq_eq_false_iff_ne]
  exact fun hh => h hh.symm

theorem isStorageReq_singleton_false (a i addr idx : Nat) (src : Source)
    (h : ¬ (a = addr ∧ i = idx)) :
    isStorageReq a i (.storage addr idx src) = false := by
  cases hb : (addr == a) with
  | false => simp [isStorageReq, hb]
  | true =>
      cases hb2 : (idx == i) with
      | false => simp [isStorageReq, hb, hb2]
      | true =>
          simp only [beq_iff_eq] at hb hb2
          exact absurd ⟨hb.symm, hb2.symm⟩ h

theorem isBlockHashReq_singleton_false (n number : Nat)
    (h : ¬ n = number) : isBlockHashReq n (.blockHash number) = false := by
  simp only [isBlockHashReq, beq_eq_false_iff_ne]
  exact fun hh => h hh.symm

theorem countInv_after_account_done (env : Env) (s : Handler) (addr : Nat)
    (resp : Except Nat (Nat × Nat × List Nat))
    (hinv : countInv s)
    (hg : s.pending_requests.any (isAccountReq addr) = true) :
    countInv (handleAccountDone env
      { s with
        pending_requests := removeFirst (isAccountReq addr) s.pending_requests }
      addr resp) := by
  obtain ⟨hA, hS, hB⟩ := hinv
  have hsome : (Map.find? s.account_requests addr).isSome = true := by
    by_contra hno
    have h0 := hA addr
    rw [if_neg hno] at h0
    have hpos : 0 < s.pending_requests.countP (isAccountReq addr) :=
      List.countP_pos_iff.mpr (List.any_eq_true.mp hg)
    omega
  have h1 := hA addr
  rw [if_pos hsome] at h1
  have compA : ∀ a,
      (removeFirst (isAccountReq addr) s.pending_requests).countP
          (isAccountReq a) =
        (if (Map.find? (Map.del s.account_requests addr) a).isSome
          then 1 else 0) := by
    intro a
    by_cases haa : a = addr
    · subst haa
      rw [Map.find?_del_self, countP_removeFirst_of_any _ _ hg, h1]
      simp
    · rw [Map.find?_del_ne _ _ _ haa,
        countP_removeFirst_disjoint _ _ _ (isAccountReq_ne_false addr a haa)]
      exact hA a
  have compS : ∀ a i,
      (removeFirst (isAccountReq addr) s.pending_requests).countP
          (isStorageReq a i) =
        (if (Map.find? s.storage_requests (a, i)).isSome then 1 else 0) := by
    intro a i
    rw [countP_removeFirst_disjoint _ _ _
      (isStorageReq_of_account_false addr a i)]
    exact hS a i
  have compB : ∀ n,
      (removeFirst (isAccountReq addr) s.pending_requests).countP
          (isBlockHashReq n) =
        (if (Map.find? s.block_requests n).isSome then 1 else 0) := by
    intro n
    rw [countP_removeFirst_disjoint _ _ _
      (isBlockHashReq_of_account_false addr n)]
    exact hB n
  cases resp with
  | error e => exact ⟨compA, compS, compB⟩
  | ok val =>
      obtain ⟨b, n, code⟩ := val
      exact ⟨compA, compS, compB⟩

theorem countInv_after_storage_done (s : Handler) (addr idx : Nat)
    (resp : Except Nat Nat)
    (hinv : countInv s)
    (hg : s.pending_requests.any (isStorageReq addr idx) = true) :
    countInv (handleStorageDone
      { s with
        pending_requests :=
          removeFirst (isStorageReq addr idx) s.pending_requests }
      addr idx resp) := by
  obtain ⟨hA, hS, hB⟩ := hinv
  have hsome : (Map.find? s.storage_requests (addr, idx)).isSome = true := by
    by_contra hno
    have h0 := hS addr idx
    rw [if_neg hno] at h0
    have hpos : 0 < s.pending_requests.countP (isStorageReq addr idx) :=
      List.countP_pos_iff.mpr (List.any_eq_true.mp hg)
    omega
  have h1 := hS addr idx
  rw [if_pos hsome] at h1
  have compA : ∀ a,
      (removeFirst (isStorageReq addr idx) s.pending_requests).countP
          (isAccountReq a) =
        (if (Map.find? s.account_requests a).isSome then 1 else 0) := by
    intro a
    rw [countP_removeFirst_disjoint _ _ _
      (isAccountReq_of_storage_false addr idx a)]
    exact hA a
  have compS : ∀ a i,
      (removeFirst (isStorageReq addr idx) s.pending_requests).countP
          (isStorageReq a i) =
        (if (Map.find? (Map.del s.storage_requests (addr, idx))
            (a, i)).isSome then 1 else 0) := by
    intro a i
    by_cases hkey : (a, i) = ((addr, idx) : Nat × Nat)
    · rw [hkey, Map.find?_del_self]
      have ha : a = addr := congrArg Prod.fst hkey
      have hi : i = idx := congrArg Prod.snd hkey
      subst ha
      subst hi
      rw [countP_removeFirst_of_any _ _ hg, h1]
      simp
    · rw [Map.find?_del_ne _ _ _ hkey]
      have hne : ¬ (a = addr ∧ i = idx) := by
        intro hh
        exact hkey (by rw [hh.1, hh.2])
      rw [countP_removeFirst_disjoint _ _ _
        (isStorageReq_ne_false addr idx a i hne)]
      exact hS a i
  have compB : ∀ n,
      (removeFirst (isStorageReq addr idx) s.pending_requests).countP
          (isBlockHashReq n) =
        (if (Map.find? s.block_requests n).isSome then 1 else 0) := by
    intro n
    rw [countP_removeFirst_disjoint _ _ _
      (isBlockHashReq_of_storage_false addr idx n)]
    exact hB n
  cases resp with
  | error e => exact ⟨compA, compS, compB⟩
  | ok value => exact ⟨compA, compS, compB⟩

theorem countInv_after_blockhash_done (s : Handler) (number : Nat)
    (value : Except Nat Nat)
    (hinv : countInv s)
    (hg : s.pending_requests.any (isBlockHashReq number) = true) :
    countInv (handleBlockHashDone
      { s with
        pending_requests :=
          removeFirst (isBlockHashReq number) s.pending_requests }
      number value) := by
  obtain ⟨hA, hS, hB⟩ := hinv
  have hsome : (Map.find? s.block_requests number).isSome = true := by
    by_contra hno
    have h0 := hB number
    rw [if_neg hno] at h0
    have hpos : 0 < s.pending_requests.countP (isBlockHashReq number) :=
      List.countP_pos_iff.mpr (List.any_eq_true.mp hg)
    omega
  have h1 := hB number
  rw [if_pos hsome] at h1
  have compA : ∀ a,
      (removeFirst (isBlockHashReq number) s.pending_requests).countP
          (isAccountReq a) =
        (if (Map.find? s.account_requests a).isSome then 1 else 0) := by
    intro a
    rw [countP_removeFirst_disjoint _ _ _
      (isAccountReq_of_blockhash_false number a)]
    exact hA a
  have compS : ∀ a i,
      (removeFirst (isBlockHashReq number) s.pending_requests).countP
          (isStorageReq a i) =
        (if (Map.find? s.storage_requests (a, i)).isSome then 1 else 0) := by
    intro a i
    rw [countP_removeFirst_disjoint _ _ _
      (isStorageReq_of_blockhash_false number a i)]
    exact hS a i
  have compB : ∀ n,
      (removeFirst (isBlockHashReq number) s.pending_requests).countP
          (isBlockHashReq n) =
        (if (Map.find? (Map.del s.block_requests number) n).isSome
          then 1 else 0) := by
    intro n
    by_cases hnn : n = number
    · subst hnn
      rw [Map.find?_del_self, countP_removeFirst_of_any _ _ hg, h1]
      simp
    · rw [Map.find?_del_ne _ _ _ hnn,
        countP_removeFirst_disjoint _ _ _
          (isBlockHashReq_ne_false number n hnn)]
      exact hB n
  cases value with
  | error e => exact ⟨compA, compS, compB⟩
  | ok v => exact ⟨compA, compS, compB⟩

theorem step_preserves_countInv (env : Env) (s t : Handler) (e : Event)
    (hstep : step env s e = some t) (hinv : countInv s) : countInv t := by
  obtain ⟨hA, hS, hB⟩ := hinv
  cases e with
  | req r =>
    cases r with
    | Basic addr sender =>
        simp only [step, on_request] at hstep
        cases hfind : Map.find? s.accounts addr with
        | some v =>
            simp only [hfind] at hstep
            injection hstep with h
            subst h
            exact ⟨hA, hS, hB⟩
        | none =>
            simp only [hfind, request_account] at hstep
            cases hreq : Map.find? s.account_requests addr with
            | some ls =>
                simp only [hreq] at hstep
                injection hstep with h
                subst h
                refine ⟨?_, hS, hB⟩
                intro a
                by_cases haa : a = addr
                · subst haa
                  have h0 := hA a
                  rw [hreq] at h0
                  simpa [Map.find?_ins_self] using h0
                · rw [Map.find?_ins_ne _ _ _ _ haa]
                  exact hA a
            | none =>
                rw [hreq] at hstep
                simp only [get_account_req_eq_spawnSrc, Option.map_map]
                  at hstep
                rcases Option.map_eq_some'.mp hstep with ⟨src, hsrc, ht⟩
                subst ht
                simp only [Function.comp_apply]
                refine ⟨?_, ?_, ?_⟩
                · intro a
                  simp only [pushRequest, List.countP_append]
                  by_cases haa : a = addr
                  · subst haa
                    have h0 := hA a
                    rw [hreq] at h0
                    simp only [Option.isSome_none] at h0
                    simp [Map.find?_ins_self, h0, List.countP_cons,
                      isAccountReq]
                  · simp only [Map.find?_ins_ne _ _ _ _ haa]
                    have hz : List.countP (isAccountReq a)
                        [PendingReq.account addr src] = 0 := by
                      simp [List.countP_cons,
                        isAccountReq_singleton_false a addr src haa]
                    rw [hz, Nat.add_zero]
                    exact hA a
                · intro a i
                  simp only [pushRequest, List.countP_append]
                  have hz : List.countP (isStorageReq a i)
                      [PendingReq.account addr src] = 0 := by
                    simp [List.countP_cons, isStorageReq]
                  rw [hz, Nat.add_zero]
                  exact hS a i
                · intro n
                  simp only [pushRequest, List.countP_append]
                  have hz : List.countP (isBlockHashReq n)
                      [PendingReq.account addr src] = 0 := by
                    simp [List.countP_cons, isBlockHashReq]
                  rw [hz, Nat.add_zero]
                  exact hB n
    | Storage addr idx sender =>
        simp only [step, on_request] at hstep
        cases hfind :
            (Map.find? s.storage addr).bind (fun acc => Map.find? acc idx) with
        | some v =>
            simp only [hfind] at hstep
            injection hstep with h
            subst h
            exact ⟨hA, hS, hB⟩
        | none =>
            simp only [hfind] at hstep
            cases hreq : Map.find? s.storage_requests (addr, idx) with
            | some ls =>
                simp only [request_account_storage, hreq] at hstep
                injection hstep with h
                subst h
                refine ⟨hA, ?_, hB⟩
                intro a i
                by_cases hkey : (a, i) = ((addr, idx) : Nat × Nat)
                · rw [hkey, Map.find?_ins_self]
                  have h0 := hS a i
                  rw [hkey, hreq] at h0
                  simpa using h0
                · rw [Map.find?_ins_ne _ _ _ _ hkey]
                  exact hS a i
            | none =>
                rw [request_account_storage_vacant env s addr idx sender hreq]
                  at hstep
                rcases Option.map_eq_some'.mp hstep with ⟨src, hsrc, ht⟩
                subst ht
                refine ⟨?_, ?_, ?_⟩
                · intro a
                  simp only [pushRequest, List.countP_append]
                  have hz : List.countP (isAccountReq a)
                      [PendingReq.storage addr idx src] = 0 := by
                    simp [List.countP_cons, isAccountReq]
                  rw [hz, Nat.add_zero]
                  exact hA a
                · intro a i
                  simp only [pushRequest, List.countP_append]
                  by_cases hkey : (a, i) = ((addr, idx) : Nat × Nat)
                  · have ha : a = addr := congrArg Prod.fst hkey
                    have hi : i = idx := congrArg Prod.snd hkey
                    subst ha
                    subst hi
                    have h0 := hS a i
                    rw [hreq] at h0
                    simp only [Option.isSome_none] at h0
                    simp [Map.find?_ins_self, h0, List.countP_cons,
                      isStorageReq]
                  · simp only [Map.find?_ins_ne _ _ _ _ hkey]
                    have hne : ¬ (a = addr ∧ i = idx) := by
                      intro hh
                      exact hkey (by rw [hh.1, hh.2])
                    have hz : List.countP (isStorageReq a i)
                        [PendingReq.storage addr idx src] = 0 := by
                      simp [List.countP_cons,
                        isStorageReq_singleton_false a i addr idx src hne]
                    rw [hz, Nat.add_zero]
                    exact hS a i
                · intro n
                  simp only [pushRequest, List.countP_append]
                  have hz : List.countP (isBlockHashReq n)
                      [PendingReq.storage addr idx src] = 0 := by
                    simp [List.countP_cons, isBlockHashReq]
                  rw [hz, Nat.add_zero]
                  exact hB n
    | BlockHash number sender =>
        simp only [step, on_request] at hstep
        cases hfind : Map.find? s.block_hashes number with
        | some v =>
            simp only [hfind] at hstep
            injection hstep with h
            subst h
            exact ⟨hA, hS, hB⟩
        | none =>
            simp only [hfind, request_hash] at hstep
            cases hreq : Map.find? s.block_requests number with
            | some ls =>
                simp only [hreq] at hstep
                injection hstep with h
                subst h
                refine ⟨hA, hS, ?_⟩
                intro n
                by_cases hnn : n = number
                · subst hnn
                  have h0 := hB n
                  rw [hreq] at h0
                  simpa [Map.find?_ins_self] using h0
                · rw [Map.find?_ins_ne _ _ _ _ hnn]
                  exact hB n
            | none =>
                simp only [hreq] at hstep
                injection hstep with h
                subst h
                refine ⟨?_, ?_, ?_⟩
                · intro a
                  simp only [pushRequest, List.countP_append]
                  have hz : List.countP (isAccountReq a)
                      [PendingReq.blockHash number] = 0 := by
                    simp [List.countP_cons, isAccountReq]
                  rw [hz, Nat.add_zero]
                  exact hA a
                · intro a i
                  simp only [pushRequest, List.countP_append]
                  have hz : List.countP (isStorageReq a i)
                      [PendingReq.blockHash number] = 0 := by
                    simp [List.countP_cons, isStorageReq]
                  rw [hz, Nat.add_zero]
                  exact hS a i
                · intro n
                  simp only [pushRequest, List.countP_append]
                  by_cases hnn : n = number
                  · subst hnn
                    have h0 := hB n
                    rw [hreq] at h0
                    simp only [Option.isSome_none] at h0
                    simp [Map.find?_ins_self, h0, List.countP_cons,
                      isBlockHashReq]
                  · simp only [Map.find?_ins_ne _ _ _ _ hnn]
                    have hz : List.countP (isBlockHashReq n)
                        [PendingReq.blockHash number] = 0 := by
                      simp [List.countP_cons,
                        isBlockHashReq_singleton_false n number hnn]
                    rw [hz, Nat.add_zero]
                    exact hB n
    | FullBlock id sender =>
        simp only [step, on_request] at hstep
        injection hstep with h
        subst h
        refine ⟨?_, ?_, ?_⟩
        · intro a
          simp only [pushRequest, List.countP_append]
          have hz : List.countP (isAccountReq a)
              [PendingReq.fullBlock id sender] = 0 := by
            simp [List.countP_cons, isAccountReq]
          rw [hz, Nat.add_zero]
          exact hA a
        · intro a i
          simp only [pushRequest, List.countP_append]
          have hz : List.countP (isStorageReq a i)
              [PendingReq.fullBlock id sender] = 0 := by
            simp [List.countP_cons, isStorageReq]
          rw [hz, Nat.add_zero]
          exact hS a i
        · intro n
          simp only [pushRequest, List.countP_append]
          have hz : List.countP (isBlockHashReq n)
              [PendingReq.fullBlock id sender] = 0 := by
            simp [List.countP_cons, isBlockHashReq]
          rw [hz, Nat.add_zero]
          exact hB n
    | Transaction th sender =>
        simp only [step, on_request] at hstep
        injection hstep with h
        subst h
        refine ⟨?_, ?_, ?_⟩
        · intro a
          simp only [pushRequest, List.countP_append]
          have hz : List.countP (isAccountReq a)
              [PendingReq.transaction th sender] = 0 := by
            simp [List.countP_cons, isAccountReq]
          rw [hz, Nat.add_zero]
          exact hA a
        · intro a i
          simp only [pushRequest, List.countP_append]
          have hz : List.countP (isStorageReq a i)
              [PendingReq.transaction th sender] = 0 := by
            simp [List.countP_cons, isStorageReq]
          rw [hz, Nat.add_zero]
          exact hS a i
        · intro n
          simp only [pushRequest, List.countP_append]
          have hz : List.countP (isBlockHashReq n)
              [PendingReq.transaction th sender] = 0 := by
            simp [List.countP_cons, isBlockHashReq]
          rw [hz, Nat.add_zero]
          exact hB n
    | AnyRequest =>
        simp only [step, on_request] at hstep
        injection hstep with h
        subst h
        refine ⟨?_, ?_, ?_⟩
        · intro a
          simp only [pushRequest, List.countP_append]
          have hz : List.countP (isAccountReq a) [PendingReq.anyRequest]
              = 0 := by
            simp [List.countP_cons, isAccountReq]
          rw [hz, Nat.add_zero]
          exact hA a
        · intro a i
          simp only [pushRequest, List.countP_append]
          have hz : List.countP (isStorageReq a i) [PendingReq.anyRequest]
              = 0 := by
            simp [List.countP_cons, isStorageReq]
          rw [hz, Nat.add_zero]
          exact hS a i
        · intro n
          simp only [pushRequest, List.countP_append]
          have hz : List.countP (isBlockHashReq n) [PendingReq.anyRequest]
              = 0 := by
            simp [List.countP_cons, isBlockHashReq]
          rw [hz, Nat.add_zero]
          exact hB n
    | SetPinnedBlock bid =>
        simp only [step, on_request] at hstep
        injection hstep with h
        subst h
        exact ⟨hA, hS, hB⟩
    | UpdateAddress data =>
        simp only [step, on_request] at hstep
        injection hstep with h
        subst h
        exact ⟨hA, hS, hB⟩
    | UpdateStorage data =>
        simp only [step, on_request] at hstep
        injection hstep with h
        subst h
        exact ⟨hA, hS, hB⟩
    | UpdateBlockHash data =>
        simp only [step, on_request] at hstep
        injection hstep with h
        subst h
        exact ⟨hA, hS, hB⟩
  | complete c =>
    simp only [step] at hstep
    injection hstep with h
    subst h
    cases c with
    | account addr resp =>
        by_cases hg : s.pending_requests.any (isAccountReq addr) = true
        · simp only [completeStep, hg, if_true]
          exact countInv_after_account_done env s addr resp ⟨hA, hS, hB⟩ hg
        · simp only [completeStep, hg, if_false]
          exact ⟨hA, hS, hB⟩
    | storage addr idx resp =>
        by_cases hg : s.pending_requests.any (isStorageReq addr idx) = true
        · simp only [completeStep, hg, if_true]
          exact countInv_after_storage_done s addr idx resp ⟨hA, hS, hB⟩ hg
        · simp only [completeStep, hg, if_false]
          exact ⟨hA, hS, hB⟩
    | blockHash number resp =>
        by_cases hg : s.pending_requests.any (isBlockHashReq number) = true
        · simp only [completeStep, hg, if_true]
          exact countInv_after_blockhash_done s number
            (fetchBlockHash env resp).1 ⟨hA, hS, hB⟩ hg
        · simp only [completeStep, hg, if_false]
          exact ⟨hA, hS, hB⟩
    | fullBlock id sender resp =>
        by_cases hg :
            s.pending_requests.any (fun r => r == .fullBlock id sender) = true
        · simp only [completeStep, hg, if_true]
          have compA : ∀ a,
              (removeFirst (fun r => r == PendingReq.fullBlock id sender)
                  s.pending_requests).countP (isAccountReq a) =
                (if (Map.find? s.account_requests a).isSome then 1 else 0) := by
            intro a
            rw [countP_removeFirst_disjoint _ _ _
              (beq_pending_disjoint (PendingReq.fullBlock id sender) (isAccountReq a) rfl)]
            exact hA a
          have compS : ∀ a i,
              (removeFirst (fun r => r == PendingReq.fullBlock id sender)
                  s.pending_requests).countP (isStorageReq a i) =
                (if (Map.find? s.storage_requests (a, i)).isSome
                  then 1 else 0) := by
            intro a i
            rw [countP_removeFirst_disjoint _ _ _
              (beq_pending_disjoint (PendingReq.fullBlock id sender) (isStorageReq a i) rfl)]
            exact hS a i
          have compB : ∀ n,
              (removeFirst (fun r => r == PendingReq.fullBlock id sender)
                  s.pending_requests).countP (isBlockHashReq n) =
                (if (Map.find? s.block_requests n).isSome then 1 else 0) := by
            intro n
            rw [countP_removeFirst_disjoint _ _ _
              (beq_pending_disjoint (PendingReq.fullBlock id sender) (isBlockHashReq n) rfl)]
            exact hB n
          exact ⟨compA, compS, compB⟩
        · simp only [completeStep, hg, if_false]
          exact ⟨hA, hS, hB⟩
    | transaction th sender resp =>
        by_cases hg :
            s.pending_requests.any (fun r => r == .transaction th sender)
              = true
        · simp only [completeStep, hg, if_true]
          have compA : ∀ a,
              (removeFirst (fun r => r == PendingReq.transaction th sender)
                  s.pending_requests).countP (isAccountReq a) =
                (if (Map.find? s.account_requests a).isSome then 1 else 0) := by
            intro a
            rw [countP_removeFirst_disjoint _ _ _
              (beq_pending_disjoint (PendingReq.transaction th sender) (isAccountReq a) rfl)]
            exact hA a
          have compS : ∀ a i,
              (removeFirst (fun r => r == PendingReq.transaction th sender)
                  s.pending_requests).countP (isStorageReq a i) =
                (if (Map.find? s.storage_requests (a, i)).isSome
                  then 1 else 0) := by
            intro a i
            rw [countP_removeFirst_disjoint _ _ _
              (beq_pending_disjoint (PendingReq.transaction th sender) (isStorageReq a i) rfl)]
            exact hS a i
          have compB : ∀ n,
              (removeFirst (fun r => r == PendingReq.transaction th sender)
                  s.pending_requests).countP (isBlockHashReq n) =
                (if (Map.find? s.block_requests n).isSome then 1 else 0) := by
            intro n
            rw [countP_removeFirst_disjoint _ _ _
              (beq_pending_disjoint (PendingReq.transaction th sender) (isBlockHashReq n) rfl)]
            exact hB n
          exact ⟨compA, compS, compB⟩
        · simp only [completeStep, hg, if_false]
          exact ⟨hA, hS, hB⟩
    | anyDone =>
        by_cases hg :
            s.pending_requests.any (fun r => r == PendingReq.anyRequest) = true
        · simp only [completeStep, hg, if_true]
          have compA : ∀ a,
              (removeFirst (fun r => r == PendingReq.anyRequest)
                  s.pending_requests).countP (isAccountReq a) =
                (if (Map.find? s.account_requests a).isSome then 1 else 0) := by
            intro a
            rw [countP_removeFirst_disjoint _ _ _
              (beq_pending_disjoint (PendingReq.anyRequest) (isAccountReq a) rfl)]
            exact hA a
          have compS : ∀ a i,
              (removeFirst (fun r => r == PendingReq.anyRequest)
                  s.pending_requests).countP (isStorageReq a i) =
                (if (Map.find? s.storage_requests (a, i)).isSome
                  then 1 else 0) := by
            intro a i
            rw [countP_removeFirst_disjoint _ _ _
              (beq_pending_disjoint (PendingReq.anyRequest) (isStorageReq a i) rfl)]
            exact hS a i
          have compB : ∀ n,
              (removeFirst (fun r => r == PendingReq.anyRequest)
                  s.pending_requests).countP (isBlockHashReq n) =
                (if (Map.find? s.block_requests n).isSome then 1 else 0) := by
            intro n
            rw [countP_removeFirst_disjoint _ _ _
              (beq_pending_disjoint (PendingReq.anyRequest) (isBlockHashReq n) rfl)]
            exact hB n
          exact ⟨compA, compS, compB⟩
        · simp only [completeStep, hg, if_false]
          exact ⟨hA, hS, hB⟩

/-- `countInv` holds all along any panic-free trace. -/
theorem run_preserves_countInv (env : Env) (evs : List Event) :
    ∀ (s t : Handler), run env s evs = some t → countInv s → countInv t := by
  induction evs with
  | nil =>
      intro s t hrun hinv
      simp only [run] at hrun
      injection hrun with h
      subst h
      exact hinv
  | cons e rest ih =>
      intro s t hrun hinv
      simp only [run] at hrun
      cases hstep : step env s e with
      | none => rw [hstep] at hrun; exact absurd hrun (by simp)
      | some s1 =>
          rw [hstep] at hrun
          exact ih s1 t hrun (step_preserves_countInv env s s1 e hstep hinv)

/-! ### Helpers for the claim theorems -/

theorem spawnSrc_none_iff (env : Env) (s : Handler)
    (h : s.file_db_factory = true) :
    spawnSrc env s = none ↔ s.block_id.bind BlockId.as_u64 = none := by
  unfold spawnSrc
  rw [if_pos h]
  cases s.block_id with
  | none => simp
  | some bid =>
      cases bid <;> simp [BlockId.as_u64, Option.some_bind] <;> split <;> simp

theorem spawnSrc_isSome_of_number (env : Env) (s : Handler) (bn : Nat)
    (h : s.block_id = some (.number bn)) :
    (spawnSrc env s).isSome = true := by
  unfold spawnSrc
  split
  · rw [h]
    simp only [BlockId.as_u64]
    split <;> rfl
  · rfl

theorem spawnSrc_remote_pin (env : Env) (s : Handler) (b bid : BlockId)
    (hpin : s.block_id = some b)
    (h : spawnSrc env s = some (.remote bid)) : bid = b := by
  unfold spawnSrc at h
  rw [hpin] at h
  split at h
  · cases b with
    | number n =>
        simp only [BlockId.as_u64] at h
        split at h
        · exact absurd (Option.some.inj h) (by simp)
        · have h2 := Option.some.inj h
          simp only [Option.getD_some, Source.remote.injEq] at h2
          exact h2.symm
    | hash hh => simp [BlockId.as_u64] at h
    | latest => simp [BlockId.as_u64] at h
  · have h2 := Option.some.inj h
    simp only [Option.getD_some, Source.remote.injEq] at h2
    exact h2.symm

theorem request_account_isSome (env : Env) (s : Handler) (addr l : Nat)
    (h : (spawnSrc env s).isSome = true) :
    (request_account env s addr l).isSome = true := by
  unfold request_account
  cases hreq : Map.find? s.account_requests addr with
  | some ls => rfl
  | none =>
      rw [get_account_req_eq_spawnSrc]
      cases hs : spawnSrc env s with
      | none => rw [hs] at h; simp at h
      | some src => rfl

theorem request_account_storage_isSome (env : Env) (s : Handler)
    (addr idx l : Nat) (h : (spawnSrc env s).isSome = true) :
    (request_account_storage env s addr idx l).isSome = true := by
  cases hreq : Map.find? s.storage_requests (addr, idx) with
  | some ls => simp [request_account_storage, hreq]
  | none =>
      rw [request_account_storage_vacant env s addr idx l hreq]
      cases hs : spawnSrc env s with
      | none => rw [hs] at h; simp at h
      | some src => rfl

theorem on_request_isSome_of_number (env : Env) (s : Handler) (bn : Nat)
    (req : BackendRequest) (h : s.block_id = some (.number bn)) :
    (on_request env s req).isSome = true := by
  have hsrc := spawnSrc_isSome_of_number env s bn h
  cases req with
  | Basic addr sender =>
      simp only [on_request]
      cases hfind : Map.find? s.accounts addr with
      | some v => rfl
      | none => exact request_account_isSome env s addr sender hsrc
  | Storage addr idx sender =>
      simp only [on_request]
      cases hfind :
          (Map.find? s.storage addr).bind (fun acc => Map.find? acc idx) with
      | some v => rfl
      | none => exact request_account_storage_isSome env s addr idx sender hsrc
  | BlockHash number sender =>
      simp only [on_request]
      cases hfind : Map.find? s.block_hashes number with
      | some v => rfl
      | none => rfl
  | FullBlock id sender => rfl
  | Transaction th sender => rfl
  | SetPinnedBlock bid => rfl
  | UpdateAddress data => rfl
  | UpdateStorage data => rfl
  | UpdateBlockHash data => rfl
  | AnyRequest => rfl

theorem any_eq_false_of_countP_eq_zero {α : Type} (p : α → Bool)
    (l : List α) (h : l.countP p = 0) : l.any p = false := by
  cases ha : l.any p with
  | false => rfl
  | true =>
      have hpos : 0 < l.countP p :=
        List.countP_pos_iff.mpr (List.any_eq_true.mp ha)
      omega

theorem countInv_new (fdb : Bool) (bid : Option BlockId) :
    countInv (Handler.new fdb bid) :=
  ⟨fun _ => rfl, fun _ _ => rfl, fun _ => rfl⟩

theorem countInv_iff_account (s : Handler) (hinv : countInv s) (a : Nat) :
    (Map.find? s.account_requests a).isSome = true ↔
      s.pending_requests.any (isAccountReq a) = true := by
  have h := hinv.1 a
  constructor
  · intro hs
    rw [if_pos hs] at h
    exact List.any_eq_true.mpr (List.countP_pos_iff.mp (by omega))
  · intro ha
    by_contra hs
    rw [if_neg hs] at h
    have hpos : 0 < s.pending_requests.countP (isAccountReq a) :=
      List.countP_pos_iff.mpr (List.any_eq_true.mp ha)
    omega

theorem countInv_iff_storage (s : Handler) (hinv : countInv s) (a i : Nat) :
    (Map.find? s.storage_requests (a, i)).isSome = true ↔
      s.pending_requests.any (isStorageReq a i) = true := by
  have h := hinv.2.1 a i
  constructor
  · intro hs
    rw [if_pos hs] at h
    exact List.any_eq_true.mpr (List.countP_pos_iff.mp (by omega))
  · intro ha
    by_contra hs
    rw [if_neg hs] at h
    have hpos : 0 < s.pending_requests.countP (isStorageReq a i) :=
      List.countP_pos_iff.mpr (List.any_eq_true.mp ha)
    omega

theorem countInv_iff_blockhash (s : Handler) (hinv : countInv s) (n : Nat) :
    (Map.find? s.block_requests n).isSome = true ↔
      s.pending_requests.any (isBlockHashReq n) = true := by
  have h := hinv.2.2 n
  constructor
  · intro hs
    rw [if_pos hs] at h
    exact List.any_eq_true.mpr (List.countP_pos_iff.mp (by omega))
  · intro ha
    by_contra hs
    rw [if_neg hs] at h
    have hpos : 0 < s.pending_requests.countP (isBlockHashReq n) :=
      List.countP_pos_iff.mpr (List.any_eq_true.mp ha)
    omega

theorem completeStep_account_ok_sent (env : Env) (s : Handler)
    (addr b n : Nat) (code : List Nat) (ls : List Nat)
    (hg : s.pending_requests.any (isAccountReq addr) = true)
    (hl : Map.find? s.account_requests addr = some ls) :
    (completeStep env s (.account addr (.ok (b, n, code)))).sent =
      s.sent ++ ls.map
        (fun l => (l, Reply.account (.ok (mkAccountInfo env b n code)))) := by
  rw [completeStep_account_ok env s addr b n code ls hg hl]

theorem completeStep_storage_ok_sent (env : Env) (s : Handler)
    (addr idx value : Nat) (ls : List Nat)
    (hg : s.pending_requests.any (isStorageReq addr idx) = true)
    (hl : Map.find? s.storage_requests (addr, idx) = some ls) :
    (completeStep env s (.storage addr idx (.ok value))).sent =
      s.sent ++ ls.map (fun l => (l, Reply.storage (.ok value))) := by
  rw [completeStep_storage_ok env s addr idx value ls hg hl]

theorem completeStep_blockhash_found_sent (env : Env) (s : Handler)
    (number : Nat) (b : Block) (ls : List Nat)
    (hg : s.pending_requests.any (isBlockHashReq number) = true)
    (hl : Map.find? s.block_requests number = some ls) :
    (completeStep env s (.blockHash number (.ok (some b)))).sent =
      s.sent ++ ls.map (fun l => (l, Reply.blockHash (.ok b.headerHash))) := by
  rw [completeStep_blockhash_found env s number b ls hg hl]

/-! ### Claim theorems -/

/-- C9: `do_get_basic`/`basic_ref` never return `Ok(None)`: every
successful handler reply is wrapped in `Some`, every error is passed
through, so the `None` arm of the advertised `Option<AccountInfo>`
interface is unreachable. -/
theorem claim_C9 :
    (∀ r : Except DatabaseError AccountInfo, basic_ref r ≠ Except.ok none) ∧
    (∀ a : AccountInfo, basic_ref (.ok a) = .ok (some a)) ∧
    (∀ e : DatabaseError, basic_ref (.error e) = .error e) := by
  refine ⟨?_, ?_, ?_⟩
  · intro r h
    cases r with
    | ok a => simp [basic_ref, do_get_basic, Except.map] at h
    | error e => simp [basic_ref, do_get_basic, Except.map] at h
  · intro a
    rfl
  · intro e
    rfl

/-- C9 witness: a concrete successful reply comes back as `Ok(Some(_))`. -/
theorem claim_C9_witness :
    basic_ref (.ok { balance := 1, nonce := 2, code := [], code_hash := 0 }) =
      .ok (some { balance := 1, nonce := 2, code := [], code_hash := 0 }) :=
  claim_C9.2.1 { balance := 1, nonce := 2, code := [], code_hash := 0 }

/-- C10: with a local archive capability configured, an account or storage
cache miss whose key is new evaluates `block_id.unwrap().as_u64().unwrap()`
and panics exactly when the pin is unset or not a plain block number; when
the pin is a plain number, no request dispatch can panic. -/
theorem claim_C10 :
    (∀ (env : Env) (s : Handler) (addr idx l : Nat),
      s.file_db_factory = true →
      Map.find? s.storage_requests (addr, idx) = none →
      (request_account_storage env s addr idx l = none ↔
        s.block_id.bind BlockId.as_u64 = none)) ∧
    (∀ (env : Env) (s : Handler) (addr : Nat),
      s.file_db_factory = true →
      (get_account_req env s addr = none ↔
        s.block_id.bind BlockId.as_u64 = none)) ∧
    (∀ (env : Env) (s : Handler) (bn : Nat) (req : BackendRequest),
      s.block_id = some (.number bn) →
      (on_request env s req).isSome = true) := by
  refine ⟨?_, ?_, ?_⟩
  · intro env s addr idx l hf hr
    rw [request_account_storage_vacant env s addr idx l hr,
      Option.map_eq_none']
    exact spawnSrc_none_iff env s hf
  · intro env s addr hf
    rw [get_account_req_eq_spawnSrc, Option.map_eq_none']
    exact spawnSrc_none_iff env s hf
  · intro env s bn req h
    exact on_request_isSome_of_number env s bn req h

/-- C10 witness: a configured local capability with an unset pin panics on a
fresh storage miss; a numeric pin cannot panic. -/
theorem claim_C10_witness :
    (request_account_storage env0 (Handler.new true none) 0 0 0 = none ↔
      (Handler.new true none).block_id.bind BlockId.as_u64 = none) ∧
    (on_request env0
      (Handler.new true (some (.number 4))) (.Basic 1 2)).isSome = true :=
  ⟨claim_C10.1 env0 (Handler.new true none) 0 0 0 rfl rfl,
   claim_C10.2.2 env0 (Handler.new true (some (.number 4))) 4
     (.Basic 1 2) rfl⟩

/-- C6: `SetPinnedBlock(b)` only updates the pin field; caches, listener
tables and pending requests are untouched, and any remote account/storage
future spawned afterwards carries the new pin `b`. -/
theorem claim_C6 : ∀ (env : Env) (s : Handler) (b : BlockId),
    on_request env s (.SetPinnedBlock b) = some { s with block_id := some b } ∧
    (∀ t, on_request env s (.SetPinnedBlock b) = some t →
      t.accounts = s.accounts ∧ t.storage = s.storage ∧
      t.block_hashes = s.block_hashes ∧
      t.account_requests = s.account_requests ∧
      t.storage_requests = s.storage_requests ∧
      t.block_requests = s.block_requests ∧
      t.pending_requests = s.pending_requests ∧
      t.block_id = some b) ∧
    (∀ addr bid,
      get_account_req env { s with block_id := some b } addr =
        some (.account addr (.remote bid)) → bid = b) ∧
    (∀ addr idx l t p,
      request_account_storage env { s with block_id := some b } addr idx l
        = some t →
      p ∈ t.spawnLog →
      p ∈ s.spawnLog ∨
        (∀ a i bid, p = PendingReq.storage a i (.remote bid) → bid = b)) := by
  intro env s b
  refine ⟨rfl, ?_, ?_, ?_⟩
  · intro t ht
    injection ht with h
    subst h
    exact ⟨rfl, rfl, rfl, rfl, rfl, rfl, rfl, rfl⟩
  · intro addr bid h
    rw [get_account_req_eq_spawnSrc] at h
    rcases Option.map_eq_some'.mp h with ⟨src, hsrc, heq⟩
    have hsrc2 : src = Source.remote bid := by
      injection heq with h1 h2
    subst hsrc2
    exact spawnSrc_remote_pin env _ b bid rfl hsrc
  · intro addr idx l t p ht hp
    cases hr : Map.find? s.storage_requests (addr, idx) with
    | some ls =>
        have hr' :
            Map.find? ({ s with block_id := some b } : Handler).storage_requests
              (addr, idx) = some ls := hr
        simp only [request_account_storage, hr'] at ht
        injection ht with h
        subst h
        exact Or.inl hp
    | none =>
        have hr' :
            Map.find? ({ s with block_id := some b } : Handler).storage_requests
              (addr, idx) = none := hr
        rw [request_account_storage_vacant env { s with block_id := some b }
          addr idx l hr'] at ht
        rcases Option.map_eq_some'.mp ht with ⟨src, hsrc, heq⟩
        subst heq
        simp only [pushRequest, List.mem_append, List.mem_singleton] at hp
        cases hp with
        | inl hin => exact Or.inl hin
        | inr heq2 =>
            right
            intro a i bid hpeq
            rw [heq2] at hpeq
            injection hpeq with h1 h2 h3
            subst h3
            exact spawnSrc_remote_pin env _ b bid rfl hsrc

/-- C6 witness: setting the pin on a fresh handler, then a remote account
fetch carries the new pin. -/
theorem claim_C6_witness :
    on_request env0 (Handler.new false none) (.SetPinnedBlock (.number 7)) =
      some { Handler.new false none with block_id := some (.number 7) } ∧
    BlockId.number 7 = BlockId.number 7 :=
  ⟨(claim_C6 env0 (Handler.new false none) (.number 7)).1,
   (claim_C6 env0 (Handler.new false none) (.number 7)).2.2.1 3
     (.number 7) rfl⟩

/-- C7: the `AccountInfo` built at an account-fetch completion satisfies the
code-hash invariant - empty code gives empty bytes and `KECCAK_EMPTY`,
non-empty code gives `keccak256(code)` - and exactly this value is stored
in the accounts map and fanned out to every listener. -/
theorem claim_C7 : ∀ (env : Env) (s : Handler) (addr b n : Nat)
    (code : List Nat) (ls : List Nat),
    s.pending_requests.any (isAccountReq addr) = true →
    Map.find? s.account_requests addr = some ls →
    (code = [] → (mkAccountInfo env b n code).code = [] ∧
      (mkAccountInfo env b n code).code_hash = KECCAK_EMPTY env) ∧
    (code ≠ [] → (mkAccountInfo env b n code).code = code ∧
      (mkAccountInfo env b n code).code_hash = env.keccak code) ∧
    Map.find?
      (completeStep env s (.account addr (.ok (b, n, code)))).accounts addr =
      some (mkAccountInfo env b n code) ∧
    (completeStep env s (.account addr (.ok (b, n, code)))).sent =
      s.sent ++ ls.map
        (fun l => (l, Reply.account (.ok (mkAccountInfo env b n code)))) := by
  intro env s addr b n code ls hg hl
  refine ⟨?_, ?_, ?_, ?_⟩
  · intro hc
    subst hc
    simp [mkAccountInfo]
  · intro hc
    simp [mkAccountInfo, hc]
  · rw [completeStep_account_ok env s addr b n code ls hg hl]
    exact Map.find?_ins_self _ _ _
  · rw [completeStep_account_ok env s addr b n code ls hg hl]

/-- C7 witness: a completion with empty code stores the account with empty
code and the empty-hash sentinel and notifies the listener. -/
theorem claim_C7_witness :
    Map.find?
      (completeStep env0
        { Handler.new false none with
          pending_requests := [.account 1 (.remote .latest)]
          account_requests := [(1, [5])] }
        (.account 1 (.ok (2, 3, [])))).accounts 1 =
      some (mkAccountInfo env0 2 3 []) ∧
    (mkAccountInfo env0 2 3 []).code_hash = KECCAK_EMPTY env0 :=
  ⟨(claim_C7 env0
      { Handler.new false none with
        pending_requests := [.account 1 (.remote .latest)]
        account_requests := [(1, [5])] }
      1 2 3 [] [5] (by decide) rfl).2.2.1,
   ((claim_C7 env0
      { Handler.new false none with
        pending_requests := [.account 1 (.remote .latest)]
        account_requests := [(1, [5])] }
      1 2 3 [] [5] (by decide) rfl).1 rfl).2⟩

/-- C4: tiered fetch policy.  With a local archive capability configured and
a numeric pin, an account or storage spawn tries the local tier first at the
pinned block number and falls back to the remote provider when the local
capability errors; block-hash, full-block and transaction dispatches never
produce a local-tier future. -/
theorem claim_C4 :
    (∀ (env : Env) (s : Handler) (addr bn : Nat),
      s.file_db_factory = true →
      s.block_id = some (.number bn) →
      (env.historyOk bn = true →
        get_account_req env s addr = some (.account addr (.localDb bn))) ∧
      (env.historyOk bn = false →
        get_account_req env s addr =
          some (.account addr (.remote (.number bn))))) ∧
    (∀ (env : Env) (s : Handler) (addr idx l bn : Nat),
      s.file_db_factory = true →
      s.block_id = some (.number bn) →
      Map.find? s.storage_requests (addr, idx) = none →
      (env.historyOk bn = true →
        request_account_storage env s addr idx l = some (pushRequest
          { s with
            storage_requests := Map.ins s.storage_requests (addr, idx) [l] }
          (.storage addr idx (.localDb bn)))) ∧
      (env.historyOk bn = false →
        request_account_storage env s addr idx l = some (pushRequest
          { s with
            storage_requests := Map.ins s.storage_requests (addr, idx) [l] }
          (.storage addr idx (.remote (.number bn)))))) ∧
    (∀ (s : Handler) (number l : Nat) (p : PendingReq),
      p ∈ (request_hash s number l).spawnLog →
      p ∈ s.spawnLog ∨ p.usesLocal = false) ∧
    (∀ (env : Env) (s : Handler) (id : BlockId) (sender : Nat),
      on_request env s (.FullBlock id sender) =
        some (pushRequest s (.fullBlock id sender)) ∧
      (PendingReq.fullBlock id sender).usesLocal = false) ∧
    (∀ (env : Env) (s : Handler) (th sender : Nat),
      on_request env s (.Transaction th sender) =
        some (pushRequest s (.transaction th sender)) ∧
      (PendingReq.transaction th sender).usesLocal = false) := by
  refine ⟨?_, ?_, ?_, ?_, ?_⟩
  · intro env s addr bn hf hpin
    constructor
    · intro hh
      unfold get_account_req
      rw [if_pos hf, hpin]
      simp [BlockId.as_u64, hh]
    · intro hh
      unfold get_account_req
      rw [if_pos hf, hpin]
      simp [BlockId.as_u64, hh]
  · intro env s addr idx l bn hf hpin hr
    constructor
    · intro hh
      rw [request_account_storage_vacant env s addr idx l hr]
      unfold spawnSrc
      rw [if_pos hf, hpin]
      simp [BlockId.as_u64, hh]
    · intro hh
      rw [request_account_storage_vacant env s addr idx l hr]
      unfold spawnSrc
      rw [if_pos hf, hpin]
      simp [BlockId.as_u64, hh]
  · intro s number l p hp
    unfold request_hash at hp
    cases hr : Map.find? s.block_requests number with
    | some ls =>
        rw [hr] at hp
        exact Or.inl hp
    | none =>
        rw [hr] at hp
        simp only [pushRequest, List.mem_append, List.mem_singleton] at hp
        cases hp with
        | inl hin => exact Or.inl hin
        | inr heq => exact Or.inr (by rw [heq]; rfl)
  · intro env s id sender
    exact ⟨rfl, rfl⟩
  · intro env s th sender
    exact ⟨rfl, rfl⟩

/-- C4 witness: with the local tier configured and accepting the pinned
block, an account spawn goes local at the pinned number. -/
theorem claim_C4_witness :
    get_account_req env0 (Handler.new true (some (.number 9))) 1 =
      some (.account 1 (.localDb 9)) :=
  ((claim_C4.1 env0 (Handler.new true (some (.number 9))) 1 9 rfl rfl).1) rfl

/-- C5: a block-hash fetch maps `Some(block)` to `block.header.hash`,
`None` to the empty-hash sentinel (with a warning), and propagates errors;
in the two `Ok` cases the hash is inserted into `block_hashes` under the
block number, so a second query for the same number is answered from the
cache and pushes no further provider future. -/
theorem claim_C5 : ∀ (env : Env) (s : Handler) (number e : Nat) (b : Block)
    (ls : List Nat),
    s.pending_requests.any (isBlockHashReq number) = true →
    Map.find? s.block_requests number = some ls →
    fetchBlockHash env (.ok (some b)) = (.ok b.headerHash, false) ∧
    fetchBlockHash env (.ok none) = (.ok (KECCAK_EMPTY env), true) ∧
    fetchBlockHash env (.error e) = (.error e, false) ∧
    Map.find?
      (completeStep env s (.blockHash number (.ok (some b)))).block_hashes
      number = some b.headerHash ∧
    Map.find?
      (completeStep env s (.blockHash number (.ok none))).block_hashes
      number = some (KECCAK_EMPTY env) ∧
    (completeStep env s (.blockHash number (.error e))).sent =
      s.sent ++ ls.map
        (fun l => (l, Reply.blockHash (.error (.GetBlockHash number e)))) ∧
    (∀ l',
      on_request env (completeStep env s (.blockHash number (.ok (some b))))
          (.BlockHash number l') =
        some (sendTo (completeStep env s (.blockHash number (.ok (some b))))
          l' (.blockHash (.ok b.headerHash))) ∧
      (completeStep env s (.blockHash number (.ok (some b)))).spawnLog =
        s.spawnLog) := by
  intro env s number e b ls hg hl
  refine ⟨rfl, rfl, rfl, ?_, ?_, ?_, ?_⟩
  · rw [completeStep_blockhash_found env s number b ls hg hl]
    exact Map.find?_ins_self _ _ _
  · rw [completeStep_blockhash_missing env s number ls hg hl]
    exact Map.find?_ins_self _ _ _
  · rw [completeStep_blockhash_err env s number e ls hg hl]
  · intro l'
    constructor
    · rw [completeStep_blockhash_found env s number b ls hg hl]
      have hfind :
          Map.find?
            ({ s with
              pending_requests :=
                removeFirst (isBlockHashReq number) s.pending_requests
              block_hashes := Map.ins s.block_hashes number b.headerHash
              block_requests := Map.del s.block_requests number
              sent := s.sent ++ ls.map
                (fun l => (l, Reply.blockHash (.ok b.headerHash))) } :
              Handler).block_hashes number = some b.headerHash :=
        Map.find?_ins_self _ _ _
      simp [on_request, hfind]
    · rw [completeStep_blockhash_found env s number b ls hg hl]

/-- C5 witness: a `None` remote response is cached as the sentinel. -/
theorem claim_C5_witness :
    Map.find?
      (completeStep env0
        { Handler.new false none with
          pending_requests := [.blockHash 99]
          block_requests := [(99, [5])] }
        (.blockHash 99 (.ok none))).block_hashes 99 =
      some (KECCAK_EMPTY env0) :=
  (claim_C5 env0
    { Handler.new false none with
      pending_requests := [.blockHash 99]
      block_requests := [(99, [5])] }
    99 0 { headerHash := 0 } [5] (by decide) rfl).2.2.2.2.1

/-- C1: coalescing.  For a fresh key (not cached, no listener entry, no
in-flight future) and N >= 2 lookups arriving before any response, the
first miss inserts a singleton listener list and pushes exactly one
provider future, each later request only appends its reply sender, and the
completion sends one equal value to every one of the N listeners.  Stated
for all three key kinds: address, (address, slot), block number. -/
theorem claim_C1 :
    (∀ (env : Env) (s : Handler) (addr : Nat) (src : Source) (b n : Nat)
      (code : List Nat) (l1 l2 : Nat) (ls : List Nat),
      Map.find? s.accounts addr = none →
      Map.find? s.account_requests addr = none →
      s.pending_requests.any (isAccountReq addr) = false →
      spawnSrc env s = some src →
      ∃ s1,
        run env s ((l1 :: l2 :: ls).map
          (fun l => Event.req (.Basic addr l))) = some s1 ∧
        on_request env s (.Basic addr l1) = some (pushRequest
          { s with account_requests := Map.ins s.account_requests addr [l1] }
          (.account addr src)) ∧
        s1.spawnLog = s.spawnLog ++ [.account addr src] ∧
        Map.find? s1.account_requests addr = some (l1 :: l2 :: ls) ∧
        (completeStep env s1 (.account addr (.ok (b, n, code)))).sent =
          s1.sent ++ (l1 :: l2 :: ls).map
            (fun l => (l, Reply.account (.ok (mkAccountInfo env b n code))))) ∧
    (∀ (env : Env) (s : Handler) (addr idx : Nat) (src : Source)
      (value : Nat) (l1 l2 : Nat) (ls : List Nat),
      (Map.find? s.storage addr).bind (fun acc => Map.find? acc idx) = none →
      Map.find? s.storage_requests (addr, idx) = none →
      s.pending_requests.any (isStorageReq addr idx) = false →
      spawnSrc env s = some src →
      ∃ s1,
        run env s ((l1 :: l2 :: ls).map
          (fun l => Event.req (.Storage addr idx l))) = some s1 ∧
        on_request env s (.Storage addr idx l1) = some (pushRequest
          { s with
            storage_requests := Map.ins s.storage_requests (addr, idx) [l1] }
          (.storage addr idx src)) ∧
        s1.spawnLog = s.spawnLog ++ [.storage addr idx src] ∧
        Map.find? s1.storage_requests (addr, idx) = some (l1 :: l2 :: ls) ∧
        (completeStep env s1 (.storage addr idx (.ok value))).sent =
          s1.sent ++ (l1 :: l2 :: ls).map
            (fun l => (l, Reply.storage (.ok value)))) ∧
    (∀ (env : Env) (s : Handler) (number : Nat) (b : Block)
      (l1 l2 : Nat) (ls : List Nat),
      Map.find? s.block_hashes number = none →
      Map.find? s.block_requests number = none →
      s.pending_requests.any (isBlockHashReq number) = false →
      ∃ s1,
        run env s ((l1 :: l2 :: ls).map
          (fun l => Event.req (.BlockHash number l))) = some s1 ∧
        on_request env s (.BlockHash number l1) = some (pushRequest
          { s with block_requests := Map.ins s.block_requests number [l1] }
          (.blockHash number)) ∧
        s1.spawnLog = s.spawnLog ++ [.blockHash number] ∧
        Map.find? s1.block_requests number = some (l1 :: l2 :: ls) ∧
        (completeStep env s1 (.blockHash number (.ok (some b)))).sent =
          s1.sent ++ (l1 :: l2 :: ls).map
            (fun l => (l, Reply.blockHash (.ok b.headerHash)))) := by
  refine ⟨?_, ?_, ?_⟩
  · intro env s addr src b n code l1 l2 ls hc hr hany hsrc
    have hreq : get_account_req env s addr = some (.account addr src) := by
      rw [get_account_req_eq_spawnSrc, hsrc]
      rfl
    have e1 := on_request_basic_vacant env s addr l1 (.account addr src)
      hc hr hreq
    have hrest := run_basic_occupied env (l2 :: ls)
      (pushRequest
        { s with account_requests := Map.ins s.account_requests addr [l1] }
        (.account addr src))
      addr [l1] hc (Map.find?_ins_self _ _ _)
    refine ⟨{ pushRequest
        { s with account_requests := Map.ins s.account_requests addr [l1] }
        (.account addr src) with
        account_requests := Map.ins
          (pushRequest
            { s with
              account_requests := Map.ins s.account_requests addr [l1] }
            (.account addr src)).account_requests addr
          ([l1] ++ (l2 :: ls)) }, ?_, e1, rfl, ?_, ?_⟩
    · simp only [List.map_cons, run, step, e1]
      exact hrest
    · exact Map.find?_ins_self _ _ _
    · exact completeStep_account_ok_sent env _ addr b n code (l1 :: l2 :: ls)
        (by simp [pushRequest, isAccountReq]) (Map.find?_ins_self _ _ _)
  · intro env s addr idx src value l1 l2 ls hc hr hany hsrc
    have e1 : on_request env s (.Storage addr idx l1) = some (pushRequest
        { s with
          storage_requests := Map.ins s.storage_requests (addr, idx) [l1] }
        (.storage addr idx src)) := by
      simp only [on_request, hc]
      rw [request_account_storage_vacant env s addr idx l1 hr, hsrc]
      rfl
    have hrest := run_storage_occupied env (l2 :: ls)
      (pushRequest
        { s with
          storage_requests := Map.ins s.storage_requests (addr, idx) [l1] }
        (.storage addr idx src))
      addr idx [l1] hc (Map.find?_ins_self _ _ _)
    refine ⟨{ pushRequest
        { s with
          storage_requests := Map.ins s.storage_requests (addr, idx) [l1] }
        (.storage addr idx src) with
        storage_requests := Map.ins
          (pushRequest
            { s with
              storage_requests := Map.ins s.storage_requests (addr, idx) [l1] }
            (.storage addr idx src)).storage_requests (addr, idx)
          ([l1] ++ (l2 :: ls)) }, ?_, e1, rfl, ?_, ?_⟩
    · simp only [List.map_cons, run, step, e1]
      exact hrest
    · exact Map.find?_ins_self _ _ _
    · exact completeStep_storage_ok_sent env _ addr idx value (l1 :: l2 :: ls)
        (by simp [pushRequest, isStorageReq]) (Map.find?_ins_self _ _ _)
  · intro env s number b l1 l2 ls hc hr hany
    have e1 := on_request_blockhash_vacant s number l1 env hc hr
    have hrest := run_blockhash_occupied env (l2 :: ls)
      (pushRequest
        { s with block_requests := Map.ins s.block_requests number [l1] }
        (.blockHash number))
      number [l1] hc (Map.find?_ins_self _ _ _)
    refine ⟨{ pushRequest
        { s with block_requests := Map.ins s.block_requests number [l1] }
        (.blockHash number) with
        block_requests := Map.ins
          (pushRequest
            { s with block_requests := Map.ins s.block_requests number [l1] }
            (.blockHash number)).block_requests number
          ([l1] ++ (l2 :: ls)) }, ?_, e1, rfl, ?_, ?_⟩
    · simp only [List.map_cons, run, step, e1]
      exact hrest
    · exact Map.find?_ins_self _ _ _
    · exact completeStep_blockhash_found_sent env _ number b (l1 :: l2 :: ls)
        (by simp [pushRequest, isBlockHashReq]) (Map.find?_ins_self _ _ _)

/-- C1 witness: two concurrent basic lookups of a fresh address spawn one
future; the completion notifies both listeners with the same account. -/
theorem claim_C1_witness :
    ∃ s1,
      run env0 (Handler.new false none)
        ([10, 11].map (fun l => Event.req (.Basic 1 l))) = some s1 ∧
      s1.spawnLog = [PendingReq.account 1 (.remote .latest)] ∧
      (completeStep env0 s1 (.account 1 (.ok (0, 0, [])))).sent =
        s1.sent ++
          [(10, Reply.account (.ok (mkAccountInfo env0 0 0 []))),
           (11, Reply.account (.ok (mkAccountInfo env0 0 0 [])))] := by
  obtain ⟨s1, h1, h2, h3, h4, h5⟩ :=
    claim_C1.1 env0 (Handler.new false none) 1 (.remote .latest) 0 0 []
      10 11 [] rfl rfl rfl rfl
  exact ⟨s1, h1, by simpa using h3, by simpa using h5⟩

/-- C3: error transparency.  An `Err` completion for an account, storage or
block-hash future leaves all three cache maps untouched, sends the typed
error variant with the same shared cause to every registered listener,
removes the listener entry, and a subsequent lookup of the same (still
uncached) key misses the cache and pushes a fresh provider future. -/
theorem claim_C3 :
    (∀ (env : Env) (s : Handler) (addr e : Nat) (ls : List Nat),
      s.pending_requests.any (isAccountReq addr) = true →
      Map.find? s.account_requests addr = some ls →
      (completeStep env s (.account addr (.error e))).accounts = s.accounts ∧
      (completeStep env s (.account addr (.error e))).storage = s.storage ∧
      (completeStep env s (.account addr (.error e))).block_hashes =
        s.block_hashes ∧
      (completeStep env s (.account addr (.error e))).sent =
        s.sent ++ ls.map
          (fun l => (l, Reply.account (.error (.GetAccount addr e)))) ∧
      Map.find?
        (completeStep env s (.account addr (.error e))).account_requests addr
        = none ∧
      (Map.find? s.accounts addr = none →
        ∀ (l' : Nat) (req : PendingReq),
        get_account_req env (completeStep env s (.account addr (.error e)))
          addr = some req →
        on_request env (completeStep env s (.account addr (.error e)))
            (.Basic addr l') =
          some (pushRequest
            { completeStep env s (.account addr (.error e)) with
              account_requests := Map.ins
                (completeStep env s (.account addr (.error e))).account_requests
                addr [l'] }
            req))) ∧
    (∀ (env : Env) (s : Handler) (addr idx e : Nat) (ls : List Nat),
      s.pending_requests.any (isStorageReq addr idx) = true →
      Map.find? s.storage_requests (addr, idx) = some ls →
      (completeStep env s (.storage addr idx (.error e))).accounts =
        s.accounts ∧
      (completeStep env s (.storage addr idx (.error e))).storage =
        s.storage ∧
      (completeStep env s (.storage addr idx (.error e))).block_hashes =
        s.block_hashes ∧
      (completeStep env s (.storage addr idx (.error e))).sent =
        s.sent ++ ls.map
          (fun l => (l, Reply.storage (.error (.GetStorage addr idx e)))) ∧
      Map.find?
        (completeStep env s (.storage addr idx (.error e))).storage_requests
        (addr, idx) = none ∧
      ((Map.find? s.storage addr).bind (fun acc => Map.find? acc idx)
          = none →
        ∀ (l' : Nat) (t : Handler),
        request_account_storage env
          (completeStep env s (.storage addr idx (.error e))) addr idx l'
          = some t →
        ∃ src, t = pushRequest
          { completeStep env s (.storage addr idx (.error e)) with
            storage_requests := Map.ins
              (completeStep env s
                (.storage addr idx (.error e))).storage_requests
              (addr, idx) [l'] }
          (.storage addr idx src))) ∧
    (∀ (env : Env) (s : Handler) (number e : Nat) (ls : List Nat),
      s.pending_requests.any (isBlockHashReq number) = true →
      Map.find? s.block_requests number = some ls →
      (completeStep env s (.blockHash number (.error e))).accounts =
        s.accounts ∧
      (completeStep env s (.blockHash number (.error e))).storage =
        s.storage ∧
      (completeStep env s (.blockHash number (.error e))).block_hashes =
        s.block_hashes ∧
      (completeStep env s (.blockHash number (.error e))).sent =
        s.sent ++ ls.map
          (fun l =>
            (l, Reply.blockHash (.error (.GetBlockHash number e)))) ∧
      Map.find?
        (completeStep env s (.blockHash number (.error e))).block_requests
        number = none ∧
      (Map.find? s.block_hashes number = none →
        ∀ l',
        on_request env (completeStep env s (.blockHash number (.error e)))
          (.BlockHash number l') =
        some (pushRequest
          { completeStep env s (.blockHash number (.error e)) with
            block_requests := Map.ins
              (completeStep env s
                (.blockHash number (.error e))).block_requests number [l'] }
          (.blockHash number)))) := by
  refine ⟨?_, ?_, ?_⟩
  · intro env s addr e ls hg hl
    rw [completeStep_account_err env s addr e ls hg hl]
    refine ⟨rfl, rfl, rfl, rfl, Map.find?_del_self _ _, ?_⟩
    intro hmiss l' req hreq
    exact on_request_basic_vacant env _ addr l' req hmiss
      (Map.find?_del_self _ _) hreq
  · intro env s addr idx e ls hg hl
    rw [completeStep_storage_err env s addr idx e ls hg hl]
    refine ⟨rfl, rfl, rfl, rfl, Map.find?_del_self _ _, ?_⟩
    intro hmiss l' t ht
    rw [request_account_storage_vacant env _ addr idx l'
      (Map.find?_del_self _ _)] at ht
    rcases Option.map_eq_some'.mp ht with ⟨src, hsrc, heq⟩
    exact ⟨src, heq.symm⟩
  · intro env s number e ls hg hl
    rw [completeStep_blockhash_err env s number e ls hg hl]
    refine ⟨rfl, rfl, rfl, rfl, Map.find?_del_self _ _, ?_⟩
    intro hmiss l'
    exact on_request_blockhash_vacant _ number l' env hmiss
      (Map.find?_del_self _ _)

/-- C3 witness: a concrete failed account fetch caches nothing, notifies
both listeners with the same typed error, and clears the listener entry. -/
theorem claim_C3_witness :
    (completeStep env0
      { Handler.new false none with
        pending_requests := [.account 1 (.remote .latest)]
        account_requests := [(1, [7, 8])] }
      (.account 1 (.error 42))).accounts = [] ∧
    (completeStep env0
      { Handler.new false none with
        pending_requests := [.account 1 (.remote .latest)]
        account_requests := [(1, [7, 8])] }
      (.account 1 (.error 42))).sent =
      [(7, Reply.account (.error (.GetAccount 1 42))),
       (8, Reply.account (.error (.GetAccount 1 42)))] ∧
    Map.find?
      (completeStep env0
        { Handler.new false none with
          pending_requests := [.account 1 (.remote .latest)]
          account_requests := [(1, [7, 8])] }
        (.account 1 (.error 42))).account_requests 1 = none := by
  obtain ⟨h1, h2, h3, h4, h5, h6⟩ :=
    claim_C3.1 env0
      { Handler.new false none with
        pending_requests := [.account 1 (.remote .latest)]
        account_requests := [(1, [7, 8])] }
      1 42 [7, 8] (by decide) rfl
  exact ⟨h1, by simpa using h4, h5⟩

/-- C2: cache-hit exclusivity.  A cached key is answered immediately under
the read lock with no state change other than the reply; and once a key is
in the shared store, along any panic-free trace (with no bulk storage
update overwriting its address map) it stays cached and no further
provider future for it is ever recorded in the spawn log. -/
theorem claim_C2 :
    (∀ (env : Env) (s : Handler) (addr l : Nat) (v : AccountInfo),
      Map.find? s.accounts addr = some v →
      on_request env s (.Basic addr l) =
        some (sendTo s l (.account (.ok v)))) ∧
    (∀ (env : Env) (s : Handler) (addr idx l v : Nat),
      (Map.find? s.storage addr).bind (fun acc => Map.find? acc idx)
        = some v →
      on_request env s (.Storage addr idx l) =
        some (sendTo s l (.storage (.ok v)))) ∧
    (∀ (env : Env) (s : Handler) (number l h : Nat),
      Map.find? s.block_hashes number = some h →
      on_request env s (.BlockHash number l) =
        some (sendTo s l (.blockHash (.ok h)))) ∧
    (∀ (env : Env) (evs : List Event) (s t : Handler) (K : CKey),
      run env s evs = some t →
      (∀ e ∈ evs, overwritesKey K e = false) →
      cacheHas s K = true →
      cacheHas t K = true ∧ spawnCount K t = spawnCount K s) := by
  refine ⟨?_, ?_, ?_, ?_⟩
  · intro env s addr l v h
    simp [on_request, h]
  · intro env s addr idx l v h
    simp [on_request, h]
  · intro env s number l h hh
    simp [on_request, hh]
  · intro env evs s t K hrun hov hc
    exact run_preserves_cached env evs s t K hrun hov hc

/-- C2 witness: a cached account is answered immediately, and along a trace
that re-requests it the cache entry survives with no new spawn. -/
theorem claim_C2_witness :
    on_request env0
      { Handler.new false none with
        accounts := [(1, { balance := 5, nonce := 0, code := [],
                           code_hash := 0 })] }
      (.Basic 1 9) =
      some (sendTo
        { Handler.new false none with
          accounts := [(1, { balance := 5, nonce := 0, code := [],
                             code_hash := 0 })] }
        9 (.account (.ok { balance := 5, nonce := 0, code := [],
                           code_hash := 0 }))) ∧
    (cacheHas
      { Handler.new false none with
        accounts := [(1, { balance := 5, nonce := 0, code := [],
                           code_hash := 0 })] }
      (.acct 1) = true ∧
     spawnCount (.acct 1)
       { Handler.new false none with
         accounts := [(1, { balance := 5, nonce := 0, code := [],
                            code_hash := 0 })] } =
       spawnCount (.acct 1)
         { Handler.new false none with
           accounts := [(1, { balance := 5, nonce := 0, code := [],
                              code_hash := 0 })] }) :=
  ⟨claim_C2.1 env0 _ 1 9 _ rfl,
   claim_C2.2.2.2 env0 []
     { Handler.new false none with
       accounts := [(1, { balance := 5, nonce := 0, code := [],
                          code_hash := 0 })] }
     _ (.acct 1) rfl (by simp) rfl⟩

/-- C8: along any panic-free trace from a fresh handler, a key appears in a
listener table iff a provider future for that key is in
`pending_requests` (with multiplicity exactly one); and a completion step
(Ok or Err) removes the pending future and the listener-table entry in the
same step in which it fans one reply out to every registered listener. -/
theorem claim_C8 :
    (∀ (env : Env) (evs : List Event) (fdb : Bool) (bid : Option BlockId)
      (t : Handler),
      run env (Handler.new fdb bid) evs = some t →
      countInv t ∧
      (∀ a, (Map.find? t.account_requests a).isSome = true ↔
        t.pending_requests.any (isAccountReq a) = true) ∧
      (∀ a i, (Map.find? t.storage_requests (a, i)).isSome = true ↔
        t.pending_requests.any (isStorageReq a i) = true) ∧
      (∀ n, (Map.find? t.block_requests n).isSome = true ↔
        t.pending_requests.any (isBlockHashReq n) = true)) ∧
    (∀ (env : Env) (s : Handler) (addr : Nat)
      (resp : Except Nat (Nat × Nat × List Nat)) (ls : List Nat),
      countInv s →
      s.pending_requests.any (isAccountReq addr) = true →
      Map.find? s.account_requests addr = some ls →
      Map.find?
        (completeStep env s (.account addr resp)).account_requests addr
        = none ∧
      (completeStep env s (.account addr resp)).pending_requests.any
        (isAccountReq addr) = false ∧
      ∃ rs, (completeStep env s (.account addr resp)).sent =
        s.sent ++ ls.map (fun l => (l, Reply.account rs))) ∧
    (∀ (env : Env) (s : Handler) (addr idx : Nat) (resp : Except Nat Nat)
      (ls : List Nat),
      countInv s →
      s.pending_requests.any (isStorageReq addr idx) = true →
      Map.find? s.storage_requests (addr, idx) = some ls →
      Map.find?
        (completeStep env s (.storage addr idx resp)).storage_requests
        (addr, idx) = none ∧
      (completeStep env s (.storage addr idx resp)).pending_requests.any
        (isStorageReq addr idx) = false ∧
      ∃ rs, (completeStep env s (.storage addr idx resp)).sent =
        s.sent ++ ls.map (fun l => (l, Reply.storage rs))) ∧
    (∀ (env : Env) (s : Handler) (number : Nat)
      (resp : Except Nat (Option Block)) (ls : List Nat),
      countInv s →
      s.pending_requests.any (isBlockHashReq number) = true →
      Map.find? s.block_requests number = some ls →
      Map.find?
        (completeStep env s (.blockHash number resp)).block_requests number
        = none ∧
      (completeStep env s (.blockHash number resp)).pending_requests.any
        (isBlockHashReq number) = false ∧
      ∃ rs, (completeStep env s (.blockHash number resp)).sent =
        s.sent ++ ls.map (fun l => (l, Reply.blockHash rs))) := by
  refine ⟨?_, ?_, ?_, ?_⟩
  · intro env evs fdb bid t hrun
    have hinv := run_preserves_countInv env evs (Handler.new fdb bid) t hrun
      (countInv_new fdb bid)
    exact ⟨hinv, countInv_iff_account t hinv, countInv_iff_storage t hinv,
      countInv_iff_blockhash t hinv⟩
  · intro env s addr resp ls hinv hg hl
    have hsome : (Map.find? s.account_requests addr).isSome = true := by
      rw [hl]
      rfl
    have h1 := hinv.1 addr
    rw [if_pos hsome] at h1
    have hzero :
        (removeFirst (isAccountReq addr) s.pending_requests).countP
          (isAccountReq addr) = 0 := by
      rw [countP_removeFirst_of_any _ _ hg, h1]
    cases resp with
    | error e =>
        rw [completeStep_account_err env s addr e ls hg hl]
        exact ⟨Map.find?_del_self _ _,
          any_eq_false_of_countP_eq_zero _ _ hzero,
          ⟨.error (.GetAccount addr e), rfl⟩⟩
    | ok val =>
        obtain ⟨b, n, code⟩ := val
        rw [completeStep_account_ok env s addr b n code ls hg hl]
        exact ⟨Map.find?_del_self _ _,
          any_eq_false_of_countP_eq_zero _ _ hzero,
          ⟨.ok (mkAccountInfo env b n code), rfl⟩⟩
  · intro env s addr idx resp ls hinv hg hl
    have hsome : (Map.find? s.storage_requests (addr, idx)).isSome = true := by
      rw [hl]
      rfl
    have h1 := hinv.2.1 addr idx
    rw [if_pos hsome] at h1
    have hzero :
        (removeFirst (isStorageReq addr idx) s.pending_requests).countP
          (isStorageReq addr idx) = 0 := by
      rw [countP_removeFirst_of_any _ _ hg, h1]
    cases resp with
    | error e =>
        rw [completeStep_storage_err env s addr idx e ls hg hl]
        exact ⟨Map.find?_del_self _ _,
          any_eq_false_of_countP_eq_zero _ _ hzero,
          ⟨.error (.GetStorage addr idx e), rfl⟩⟩
    | ok value =>
        rw [completeStep_storage_ok env s addr idx value ls hg hl]
        exact ⟨Map.find?_del_self _ _,
          any_eq_false_of_countP_eq_zero _ _ hzero,
          ⟨.ok value, rfl⟩⟩
  · intro env s number resp ls hinv hg hl
    have hsome : (Map.find? s.block_requests number).isSome = true := by
      rw [hl]
      rfl
    have h1 := hinv.2.2 number
    rw [if_pos hsome] at h1
    have hzero :
        (removeFirst (isBlockHashReq number) s.pending_requests).countP
          (isBlockHashReq number) = 0 := by
      rw [countP_removeFirst_of_any _ _ hg, h1]
    cases resp with
    | error e =>
        rw [completeStep_blockhash_err env s number e ls hg hl]
        exact ⟨Map.find?_del_self _ _,
          any_eq_false_of_countP_eq_zero _ _ hzero,
          ⟨.error (.GetBlockHash number e), rfl⟩⟩
    | ok ob =>
        cases ob with
        | none =>
            rw [completeStep_blockhash_missing env s number ls hg hl]
            exact ⟨Map.find?_del_self _ _,
              any_eq_false_of_countP_eq_zero _ _ hzero,
              ⟨.ok (KECCAK_EMPTY env), rfl⟩⟩
        | some b =>
            rw [completeStep_blockhash_found env s number b ls hg hl]
            exact ⟨Map.find?_del_self _ _,
              any_eq_false_of_countP_eq_zero _ _ hzero,
              ⟨.ok b.headerHash, rfl⟩⟩

/-- C8 witness: after one fresh basic request the invariant holds, and the
listener key 1 is in the table iff its future is pending (both true). -/
theorem claim_C8_witness :
    ∃ t, run env0 (Handler.new false none)
        [Event.req (.Basic 1 10)] = some t ∧
      ((Map.find? t.account_requests 1).isSome = true ↔
        t.pending_requests.any (isAccountReq 1) = true) := by
  obtain ⟨hinv, hiff, _, _⟩ :=
    claim_C8.1 env0 [Event.req (.Basic 1 10)] false none
      (pushRequest
        { Handler.new false none with account_requests := [(1, [10])] }
        (.account 1 (.remote .latest)))
      rfl
  exact ⟨_, rfl, hiff 1⟩
